import Mathlib

/-! The program cfssl-certificate-requester.

A shallow embedding of `main.go`: the three functions `main`, `parseArguments`
and `requestCertificate`, the payload type `ApiCertificateRequest`, and the
parts of the Go standard library they call (`unicode/utf8`, `regexp`,
`encoding/json`, `flag`), followed by theorems about them.

Go strings are byte sequences, so every string of the program is a list of
bytes here.  Effects (standard output, the error stream, the file system,
the network) are recorded as a list of events.
-/

namespace CfsslRequester

/-! ## Bytes and strings -/

/-- A byte. -/
abbrev Byte := Fin 256

/-- A Go `string` (and a non-nil `[]byte`): a sequence of bytes. -/
abbrev GoString := List Byte

/-- The bytes of an ASCII literal of the source. -/
def ascii (s : String) : GoString := s.data.map (fun c => Fin.ofNat c.toNat)

/-! ## `unicode/utf8` -/

/-- The constant `utf8.RuneError`, the replacement character U+FFFD. -/
def RuneError : Nat := 0xFFFD

/-- Continuation byte test: `locb <= b && b <= hicb`. -/
def isCont (b : Byte) : Bool := 0x80 ≤ b.val && b.val ≤ 0xBF

/-- The accept range of the second byte for a leading byte (`acceptRanges[first[b0]>>4]`). -/
def acceptRange (b0 : Byte) : Nat × Nat :=
  if b0.val = 0xE0 then (0xA0, 0xBF)
  else if b0.val = 0xED then (0x80, 0x9F)
  else if b0.val = 0xF0 then (0x90, 0xBF)
  else if b0.val = 0xF4 then (0x80, 0x8F)
  else (0x80, 0xBF)

/-- The sequence length announced by a leading byte (`first[b0] & 7`), 0 for a
byte that cannot start a multi-byte sequence (`first[b0] == xx`) and 1 for
ASCII (`first[b0] == as`). -/
def seqLen (b0 : Byte) : Nat :=
  if b0.val < 0x80 then 1
  else if b0.val < 0xC2 then 0
  else if b0.val < 0xE0 then 2
  else if b0.val < 0xF0 then 3
  else if b0.val < 0xF5 then 4
  else 0

/-- The function `utf8.DecodeRuneInString`: the first rune of `s` and its width in bytes;
`(RuneError, 0)` on the empty string and `(RuneError, 1)` on an invalid
encoding. -/
def decodeRune : GoString → Nat × Nat
  | [] => (RuneError, 0)
  | b0 :: t =>
    if seqLen b0 = 1 then (b0.val, 1)
    else if seqLen b0 = 0 then (RuneError, 1)
    else
      match t with
      | [] => (RuneError, 1)
      | b1 :: t1 =>
        if b1.val < (acceptRange b0).1 ∨ (acceptRange b0).2 < b1.val then (RuneError, 1)
        else if seqLen b0 = 2 then ((b0.val % 32) * 64 + b1.val % 64, 2)
        else
          match t1 with
          | [] => (RuneError, 1)
          | b2 :: t2 =>
            if !isCont b2 then (RuneError, 1)
            else if seqLen b0 = 3 then
              ((b0.val % 16) * 4096 + (b1.val % 64) * 64 + b2.val % 64, 3)
            else
              match t2 with
              | [] => (RuneError, 1)
              | b3 :: _ =>
                if !isCont b3 then (RuneError, 1)
                else ((b0.val % 8) * 262144 + (b1.val % 64) * 4096
                        + (b2.val % 64) * 64 + b3.val % 64, 4)

/-! ## `regexp` -/

/-- The syntax of the regular expressions the program uses. -/
inductive Regexp where
  | beginText : Regexp
  | endText : Regexp
  | literal (r : Nat) : Regexp
  | charClass (lo hi : Nat) : Regexp
  | concat (a b : Regexp) : Regexp
  | star (a : Regexp) : Regexp
  | rep (a : Regexp) (n : Nat) : Regexp
  | capture (a : Regexp) : Regexp
  deriving Repr, DecidableEq

/-- A position of the matcher in the input: the byte offset and the input
that remains from there. -/
structure Pos where
  off : Nat
  rest : GoString
  deriving Repr, DecidableEq

/-- One step over a rune: read the rune at the position and advance past it
when `p` accepts it.  At the end of the input there is no rune. -/
def stepIf (p : Nat → Bool) (q : Pos) : List Pos :=
  match q.rest with
  | [] => []
  | _ :: _ =>
    if p (decodeRune q.rest).1 then
      [⟨q.off + (decodeRune q.rest).2, q.rest.drop (decodeRune q.rest).2⟩]
    else []

/-- The positions reached from `q` by at most `n` rounds of `f`. -/
def iterate (f : Pos → List Pos) : Nat → Pos → List Pos
  | 0, q => [q]
  | n + 1, q => q :: (f q).flatMap (iterate f n)

/-- The positions reached from `q` by exactly `n` rounds of `f`. -/
def times (f : Pos → List Pos) : Nat → Pos → List Pos
  | 0, q => [q]
  | n + 1, q => (f q).flatMap (times f n)

/-- All positions at which a match of the expression that starts at `q` can
end. -/
def Regexp.ends : Regexp → Pos → List Pos
  | .beginText, q => if q.off = 0 then [q] else []
  | .endText, q => if q.rest.isEmpty then [q] else []
  | .literal r, q => stepIf (fun c => c == r) q
  | .charClass lo hi, q => stepIf (fun c => decide (lo ≤ c) && decide (c ≤ hi)) q
  | .concat a b, q => (a.ends q).flatMap (fun m => b.ends m)
  | .star a, q => iterate (fun m => a.ends m) q.rest.length q
  | .rep a n, q => times (fun m => a.ends m) n q
  | .capture a, q => a.ends q

/-- The positions at which a search may start: the start of the input and
the position after each rune. -/
def starts : Nat → Nat → GoString → List Pos
  | _, off, [] => [⟨off, []⟩]
  | 0, off, s => [⟨off, s⟩]
  | fuel + 1, off, b :: t =>
    ⟨off, b :: t⟩ ::
      starts fuel (off + (decodeRune (b :: t)).2) ((b :: t).drop (decodeRune (b :: t)).2)

/-- The method `(*Regexp).MatchString`: does the string contain a match of the
expression? -/
def Regexp.MatchString (re : Regexp) (s : GoString) : Bool :=
  (starts s.length 0 s).any (fun q => !(re.ends q).isEmpty)

/-- The expression `^([1-9]{1}[0-9]*)h$` of `requestCertificate`, as
`regexp.MustCompile` parses it. -/
def reExpiry : Regexp :=
  .concat .beginText
    (.concat
      (.capture (.concat (.rep (.charClass 0x31 0x39) 1) (.star (.charClass 0x30 0x39))))
      (.concat (.literal 0x68) .endText))

/-! ## Errors -/

/-- A Go `error` value: a message (`fmt.Errorf`, or an error of a library) or
an error wrapped with a context label (`errors.Wrap`). -/
inductive GoError where
  | msg (text : GoString) : GoError
  | wrap (cause : GoError) (label : GoString) : GoError
  deriving Repr, DecidableEq

/-- The text of an error, `err.Error()`: a wrapped error reads
`label: cause`. -/
def GoError.Error : GoError → GoString
  | .msg text => text
  | .wrap cause label => label ++ ascii ": " ++ cause.Error

/-- The outermost context label of an error, when it is a wrapped one. -/
def GoError.label : GoError → Option GoString
  | .msg _ => none
  | .wrap _ l => some l

/-! ## `encoding/json`: encoding -/

/-- The digits of `hex` in `encoding/json`. -/
def hexDigit (n : Nat) : Byte :=
  if n < 10 then Fin.ofNat (0x30 + n) else Fin.ofNat (0x61 + (n - 10))

/-- Membership in `htmlSafeSet`: the ASCII bytes that a JSON string holds
unescaped, that is all from the space on except the double quote, the
backslash and `<`, `>`, `&`. -/
def htmlSafe (b : Byte) : Bool :=
  decide (0x20 ≤ b.val) && decide (b.val < 0x80) && b.val != 0x22 && b.val != 0x5C
    && b.val != 0x3C && b.val != 0x3E && b.val != 0x26

/-- The escape sequence of an ASCII byte outside `htmlSafeSet`: a backslash
before the quote and the backslash, `\n`, `\r`, `\t`, and `\u00XX` for the
rest.  (Go 1.22 and later also write `\b` and `\f`, which read back the
same.) -/
def escapeByte (b : Byte) : GoString :=
  if b.val = 0x5C ∨ b.val = 0x22 then [0x5C, b]
  else if b.val = 0x0A then [0x5C, 0x6E]
  else if b.val = 0x0D then [0x5C, 0x72]
  else if b.val = 0x09 then [0x5C, 0x74]
  else [0x5C, 0x75, 0x30, 0x30, hexDigit (b.val / 16), hexDigit (b.val % 16)]

/-- The loop of `encodeState.string`: the body of the JSON string literal for
`src`.  The fuel bounds the number of rounds; each round consumes at least
one byte, so `src.length` rounds are enough. -/
def stringLoop : Nat → GoString → GoString
  | 0, _ => []
  | _ + 1, [] => []
  | fuel + 1, b :: rest =>
    if b.val < 0x80 then
      if htmlSafe b then b :: stringLoop fuel rest
      else escapeByte b ++ stringLoop fuel rest
    else
      if (decodeRune (b :: rest)).1 = RuneError ∧ (decodeRune (b :: rest)).2 = 1 then
        ascii "\\ufffd" ++ stringLoop fuel rest
      else if (decodeRune (b :: rest)).1 = 0x2028 ∨ (decodeRune (b :: rest)).1 = 0x2029 then
        ascii "\\u202" ++ hexDigit ((decodeRune (b :: rest)).1 % 16)
          :: stringLoop fuel ((b :: rest).drop (decodeRune (b :: rest)).2)
      else
        (b :: rest).take (decodeRune (b :: rest)).2
          ++ stringLoop fuel ((b :: rest).drop (decodeRune (b :: rest)).2)

/-- The JSON string literal for a Go string (`encodeState.string` with HTML
escaping, as `json.Marshal` calls it). -/
def encodeString (src : GoString) : GoString :=
  (0x22 : Byte) :: stringLoop src.length src ++ [(0x22 : Byte)]

/-- The values a struct field of the program can hold, as `encoding/json`
sees them. -/
inductive FieldValue where
  | string (s : GoString) : FieldValue
  | bool (b : Bool) : FieldValue
  | stringSlice (xs : Option (List GoString)) : FieldValue
  | unsupported (typeName : GoString) : FieldValue
  deriving Repr, DecidableEq

/-- The items of a list separated by commas. -/
def joinComma : List GoString → GoString
  | [] => []
  | [x] => x
  | x :: y :: rest => x ++ (0x2C : Byte) :: joinComma (y :: rest)

/-- The encoding of one value: a string as a string literal, a boolean as
`true` or `false`, a nil slice as `null`, a slice as an array; a channel,
function or complex value is an `UnsupportedTypeError`. -/
def marshalValue : FieldValue → Except GoError GoString
  | .string s => .ok (encodeString s)
  | .bool true => .ok (ascii "true")
  | .bool false => .ok (ascii "false")
  | .stringSlice none => .ok (ascii "null")
  | .stringSlice (some xs) => .ok (ascii "[" ++ joinComma (xs.map encodeString) ++ ascii "]")
  | .unsupported typeName => .error (.msg (ascii "json: unsupported type: " ++ typeName))

/-- The members of an object, each `"name":value`, in the order of the
fields. -/
def marshalFields : List (String × FieldValue) → Except GoError (List GoString)
  | [] => .ok []
  | (name, v) :: rest =>
    match marshalValue v with
    | .error e => .error e
    | .ok enc =>
      match marshalFields rest with
      | .error e => .error e
      | .ok encs => .ok ((ascii "\"" ++ ascii name ++ ascii "\":" ++ enc) :: encs)

/-- The function `json.Marshal` on a struct value, given as its fields under their JSON
names. -/
def Marshal (fields : List (String × FieldValue)) : Except GoError GoString :=
  match marshalFields fields with
  | .error e => .error e
  | .ok encs => .ok (ascii "\x7b" ++ joinComma encs ++ ascii "\x7d")

/-! ## The payload -/

/-- The struct `ApiCertificateRequest`.  A nil slice is `none`. -/
structure ApiCertificateRequest where
  Hosts : Option (List GoString)
  CertificateRequest : GoString
  Expiry : GoString
  Profile : GoString
  Bundle : Bool
  deriving Repr, DecidableEq

/-- The fields of an `ApiCertificateRequest` under the names of their `json`
tags, in declaration order. -/
def ApiCertificateRequest.fields (r : ApiCertificateRequest) : List (String × FieldValue) :=
  [("hosts", .stringSlice r.Hosts),
   ("certificate_request", .string r.CertificateRequest),
   ("expiry", .string r.Expiry),
   ("profile", .string r.Profile),
   ("bundle", .bool r.Bundle)]

/-! ## JSON text, read back

The reader below is the reference against which the payload is checked: it
reads compact JSON text (RFC 8259 without insignificant white space) whose
values are `null`, booleans, strings and arrays of strings, which is all an
`ApiCertificateRequest` encodes to. -/

/-- The function `utf8.AppendRune`: the UTF-8 encoding of a rune; a surrogate or a value
past U+10FFFF is encoded as U+FFFD. -/
def encodeRune (r : Nat) : GoString :=
  if r < 0x80 then [Fin.ofNat r]
  else if r < 0x800 then [Fin.ofNat (0xC0 + r / 64), Fin.ofNat (0x80 + r % 64)]
  else if 0x10FFFF < r ∨ (0xD800 ≤ r ∧ r ≤ 0xDFFF) then [0xEF, 0xBF, 0xBD]
  else if r < 0x10000 then
    [Fin.ofNat (0xE0 + r / 4096), Fin.ofNat (0x80 + r / 64 % 64), Fin.ofNat (0x80 + r % 64)]
  else
    [Fin.ofNat (0xF0 + r / 262144), Fin.ofNat (0x80 + r / 4096 % 64),
      Fin.ofNat (0x80 + r / 64 % 64), Fin.ofNat (0x80 + r % 64)]

/-- The value of a hexadecimal digit, in either case. -/
def hexVal (b : Byte) : Option Nat :=
  if 0x30 ≤ b.val ∧ b.val ≤ 0x39 then some (b.val - 0x30)
  else if 0x61 ≤ b.val ∧ b.val ≤ 0x66 then some (b.val - 0x61 + 10)
  else if 0x41 ≤ b.val ∧ b.val ≤ 0x46 then some (b.val - 0x41 + 10)
  else none

/-- The code unit written by the four hexadecimal digits of a `\u` escape. -/
def getu4 (h1 h2 h3 h4 : Byte) : Option Nat :=
  match hexVal h1, hexVal h2, hexVal h3, hexVal h4 with
  | some a, some b, some c, some d => some (a * 4096 + b * 256 + c * 16 + d)
  | _, _, _, _ => none

/-- The byte a two-character escape stands for. -/
def simpleEscape (e : Byte) : Option Byte :=
  if e.val = 0x22 ∨ e.val = 0x5C ∨ e.val = 0x2F then some e
  else if e.val = 0x62 then some 0x08
  else if e.val = 0x66 then some 0x0C
  else if e.val = 0x6E then some 0x0A
  else if e.val = 0x72 then some 0x0D
  else if e.val = 0x74 then some 0x09
  else none

/-- Put bytes in front of a decoded string. -/
def consOut (pre : GoString) : Option (GoString × GoString) → Option (GoString × GoString)
  | none => none
  | some (out, rest) => some (pre ++ out, rest)

/-- The low surrogate written by a `\u` escape at the front of the text, if
there is one. -/
def lowSurrogate : GoString → Option Nat
  | c1 :: c2 :: g1 :: g2 :: g3 :: g4 :: _ =>
    if c1.val = 0x5C ∧ c2.val = 0x75 then
      match getu4 g1 g2 g3 g4 with
      | some r2 => if 0xDC00 ≤ r2 ∧ r2 < 0xE000 then some r2 else none
      | none => none
    else none
  | _ => none

/-- One step of reading a string literal. -/
inductive Step where
  | fail : Step
  | done (rest : GoString) : Step
  | more (out rest : GoString) : Step
  deriving Repr, DecidableEq

/-- Read what follows `\u`: four hexadecimal digits.  The escape stands for
the UTF-8 encoding of its code point, a high surrogate followed by the escape
of a low one for the code point of the pair, any other surrogate for
U+FFFD. -/
def unquoteU : GoString → Step
  | h1 :: h2 :: h3 :: h4 :: rest2 =>
    match getu4 h1 h2 h3 h4 with
    | none => .fail
    | some rr =>
      if 0xD800 ≤ rr ∧ rr < 0xE000 then
        match (if rr < 0xDC00 then lowSurrogate rest2 else none) with
        | none => .more (encodeRune RuneError) rest2
        | some r2 =>
          .more (encodeRune ((rr - 0xD800) * 1024 + (r2 - 0xDC00) + 0x10000)) (rest2.drop 6)
      else .more (encodeRune rr) rest2
  | _ => .fail

/-- Read the next piece of the body of a string literal: the closing quote,
an escape sequence, or a byte that stands for itself; a control character
may not appear raw. -/
def unquoteStep : GoString → Step
  | [] => .fail
  | b :: rest =>
    if b.val = 0x22 then .done rest
    else if b.val = 0x5C then
      match rest with
      | [] => .fail
      | e :: rest1 =>
        if e.val = 0x75 then unquoteU rest1
        else
          match simpleEscape e with
          | none => .fail
          | some c => .more [c] rest1
    else if b.val < 0x20 then .fail
    else .more [b] rest

/-- Read the body of a string literal up to its closing quote, in at most
the given number of steps: the decoded string and the text after the
quote. -/
def unquoteLoop : Nat → GoString → Option (GoString × GoString)
  | 0, _ => none
  | fuel + 1, s =>
    match unquoteStep s with
    | .fail => none
    | .done rest => some ([], rest)
    | .more out rest => consOut out (unquoteLoop fuel rest)

/-- Read the body of a string literal up to its closing quote.  Every step
consumes at least one byte, so as many steps as there are bytes are
enough. -/
def unquoteBody (s : GoString) : Option (GoString × GoString) := unquoteLoop s.length s

/-- Read a string literal: the decoded string and the text after it. -/
def parseString : GoString → Option (GoString × GoString)
  | [] => none
  | b :: rest => if b.val = 0x22 then unquoteBody rest else none

/-- Drop the given literal from the front of the text. -/
def expect : GoString → GoString → Option GoString
  | [], s => some s
  | _ :: _, [] => none
  | l :: ls, b :: s => if l = b then expect ls s else none

/-- A JSON value of the payload: `null`, a boolean, a string or an array of
strings. -/
inductive JValue where
  | null : JValue
  | bool (b : Bool) : JValue
  | string (s : GoString) : JValue
  | array (xs : List GoString) : JValue
  deriving Repr, DecidableEq

/-- Read the elements of a non-empty array of strings, up to the closing
bracket. -/
def parseElements : Nat → GoString → Option (List GoString × GoString)
  | 0, _ => none
  | fuel + 1, s =>
    match parseString s with
    | none => none
    | some (x, rest) =>
      match rest with
      | [] => none
      | c :: rest1 =>
        if c.val = 0x5D then some ([x], rest1)
        else if c.val = 0x2C then
          match parseElements fuel rest1 with
          | none => none
          | some (xs, rest2) => some (x :: xs, rest2)
        else none

/-- Read one value: the value and the text after it. -/
def parseValue : GoString → Option (JValue × GoString)
  | [] => none
  | b :: rest =>
    if b.val = 0x22 then (unquoteBody rest).map (fun r => (.string r.1, r.2))
    else if b.val = 0x6E then (expect (ascii "ull") rest).map (fun r => (.null, r))
    else if b.val = 0x74 then (expect (ascii "rue") rest).map (fun r => (.bool true, r))
    else if b.val = 0x66 then (expect (ascii "alse") rest).map (fun r => (.bool false, r))
    else if b.val = 0x5B then
      match rest with
      | [] => none
      | c :: rest1 =>
        if c.val = 0x5D then some (.array [], rest1)
        else (parseElements rest.length rest).map (fun r => (.array r.1, r.2))
    else none

/-- Read the members of a non-empty object, up to the closing brace. -/
def parseMembers : Nat → GoString → Option (List (GoString × JValue) × GoString)
  | 0, _ => none
  | fuel + 1, s =>
    match parseString s with
    | none => none
    | some (key, rest) =>
      match rest with
      | [] => none
      | c :: rest1 =>
        if c.val ≠ 0x3A then none
        else
          match parseValue rest1 with
          | none => none
          | some (v, rest2) =>
            match rest2 with
            | [] => none
            | d :: rest3 =>
              if d.val = 0x7D then some ([(key, v)], rest3)
              else if d.val = 0x2C then
                match parseMembers fuel rest3 with
                | none => none
                | some (ms, rest4) => some ((key, v) :: ms, rest4)
              else none

/-- Read a whole text as one JSON object: its members, in order. -/
def parseObject : GoString → Option (List (GoString × JValue))
  | [] => none
  | b :: rest =>
    if b.val ≠ 0x7B then none
    else
      match rest with
      | [] => none
      | c :: rest1 =>
        if c.val = 0x7D then (if rest1 = [] then some [] else none)
        else
          match parseMembers rest.length rest with
          | some (ms, []) => some ms
          | _ => none

/-- The loop of `utf8.ValidString`: every rune of the string decodes without
an encoding error. -/
def validLoop : Nat → GoString → Bool
  | _, [] => true
  | 0, _ :: _ => false
  | fuel + 1, b :: rest =>
    if (decodeRune (b :: rest)).1 = RuneError ∧ (decodeRune (b :: rest)).2 = 1 then false
    else validLoop fuel ((b :: rest).drop (decodeRune (b :: rest)).2)

/-- The function `utf8.ValidString`: the string is valid UTF-8. -/
def ValidString (s : GoString) : Bool := validLoop s.length s

/-! ## `flag` -/

/-- The values of the five flags `parseArguments` defines. -/
structure Flags where
  cfsslServer : GoString
  csrFile : GoString
  expiry : GoString
  cfsslProfile : GoString
  verbose : Bool
  deriving Repr, DecidableEq

/-- The defaults the flags are defined with: empty strings and `false`. -/
def Flags.defaults : Flags := ⟨[], [], [], [], false⟩

/-- Why `flag.Parse` stopped: `-h` or `-help` was given (`flag.ErrHelp`), or
the command line is wrong: an argument of bad flag syntax, a flag that is
not defined, a string flag without its value, or a value of the boolean flag
that `strconv.ParseBool` rejects. -/
inductive FlagError where
  | help : FlagError
  | badSyntax (arg : GoString) : FlagError
  | notDefined (name : GoString) : FlagError
  | needsArgument (name : GoString) : FlagError
  | invalidBool (value name : GoString) : FlagError
  deriving Repr, DecidableEq

/-- The function `strconv.ParseBool`. -/
def ParseBool (s : GoString) : Option Bool :=
  if s ∈ [ascii "1", ascii "t", ascii "T", ascii "TRUE", ascii "true", ascii "True"] then
    some true
  else if s ∈ [ascii "0", ascii "f", ascii "F", ascii "FALSE", ascii "false", ascii "False"] then
    some false
  else none

/-- Split `name=value` at the first `=` among the bytes given; without one
there is no value. -/
def splitEq : GoString → GoString × Option GoString
  | [] => ([], none)
  | b :: rest =>
    if b.val = 0x3D then ([], some rest)
    else ((splitEq rest).1 |> (b :: ·), (splitEq rest).2)

/-- Split a flag at the first `=` that is not its first byte (the loop of
`parseOne` starts at index 1). -/
def splitFlag : GoString → GoString × Option GoString
  | [] => ([], none)
  | b :: rest => (b :: (splitEq rest).1, (splitEq rest).2)

/-- Store a value in the string flag of that name, if there is one. -/
def Flags.setString (f : Flags) (name value : GoString) : Option Flags :=
  if name = ascii "cfssl-server" then some { f with cfsslServer := value }
  else if name = ascii "csr-file" then some { f with csrFile := value }
  else if name = ascii "expiry" then some { f with expiry := value }
  else if name = ascii "cfssl-profile" then some { f with cfsslProfile := value }
  else none

/-- The loop of `FlagSet.Parse` over `parseOne`: flags are read until the
first argument that is not a flag, or `--`.  A string flag takes its value
after `=` or from the next argument; the boolean flag takes one only after
`=`. -/
def parseFlags : List GoString → Flags → Except FlagError Flags
  | [], f => .ok f
  | s :: rest, f =>
    match s with
    | [] => .ok f
    | [_] => .ok f
    | b0 :: b1 :: more =>
      if b0.val ≠ 0x2D then .ok f
      else if b1.val = 0x2D ∧ more = [] then .ok f
      else
        let name := if b1.val = 0x2D then more else b1 :: more
        if name = [] ∨ name.head? = some 0x2D ∨ name.head? = some 0x3D then
          .error (.badSyntax s)
        else if (splitFlag name).1 = ascii "verbose" then
          match (splitFlag name).2 with
          | some v =>
            match ParseBool v with
            | some b => parseFlags rest { f with verbose := b }
            | none => .error (.invalidBool v (splitFlag name).1)
          | none => parseFlags rest { f with verbose := true }
        else
          match f.setString (splitFlag name).1 [] with
          | none =>
            if (splitFlag name).1 = ascii "help" ∨ (splitFlag name).1 = ascii "h" then
              .error .help
            else
              .error (.notDefined (splitFlag name).1)
          | some _ =>
            match (splitFlag name).2 with
            | some v => parseFlags rest ((f.setString (splitFlag name).1 v).getD f)
            | none =>
              match rest with
              | v :: rest1 => parseFlags rest1 ((f.setString (splitFlag name).1 v).getD f)
              | [] =>
                .error (.needsArgument (splitFlag name).1)

/-- The exit status of `flag.Parse` under `flag.ExitOnError`: 0 after the
help text (Go 1.15 and later; 2 before that), 2 after a wrong command
line. -/
def FlagError.exitCode : FlagError → Nat
  | .help => 0
  | _ => 2

/-! ## The world of the process -/

/-- What reading to the end gives (`ioutil.ReadFile`, `ioutil.ReadAll`):
the bytes read and, when the read failed, the error. -/
structure ReadResult where
  data : GoString
  err : Option GoError
  deriving Repr, DecidableEq

/-- An HTTP response as the program uses it: the status code and what
`ioutil.ReadAll(response.Body)` returns. -/
structure Response where
  StatusCode : Int
  Body : ReadResult
  deriving Repr, DecidableEq

/-- The surroundings of one run of the process: the argument vector
(`os.Args` is `Args0 :: Args`), the file system as `ioutil.ReadFile` sees it,
and the network as `http.Post` sees it (URL, content type, body). -/
structure World where
  Args0 : GoString
  Args : List GoString
  ReadFile : GoString → ReadResult
  Post : GoString → GoString → GoString → Except GoError Response

/-- The observable actions of the process, in the order they happen. -/
inductive Event where
  | stderr (text : GoString) : Event
  | stdout (text : GoString) : Event
  | flagParse (args : List GoString) : Event
  | flagFailure (e : FlagError) : Event
  | readFile (path : GoString) : Event
  | post (url contentType body : GoString) : Event
  | closeBody : Event
  | setLevel (debug : Bool) : Event
  | debug (message : GoString) (fields : List (String × GoString)) : Event
  | fatal (text : GoString) : Event
  deriving Repr, DecidableEq

/-- Is the event a call of `http.Post`? -/
def Event.isPost : Event → Bool
  | .post _ _ _ => true
  | _ => false

/-- A finished run: what happened, and the exit status. -/
structure Run where
  events : List Event
  exit : Nat
  deriving Repr, DecidableEq

/-- The return values of `parseArguments`. -/
structure Arguments where
  cfsslServerAddress : GoString
  csr : GoString
  csrExpiry : GoString
  cfsslProfileName : GoString
  verboseModeEnabled : Bool
  e : Option GoError
  deriving Repr, DecidableEq

/-- The return values of `requestCertificate`: a byte slice (`none` is nil)
and an error (`none` is nil). -/
structure Result where
  body : Option GoString
  err : Option GoError
  deriving Repr, DecidableEq

/-! ## The program -/

/-- The text `parseArguments` prints when no arguments are given. -/
def banner (prog : GoString) : GoString :=
  ascii ("cfssl-certificate-requester: A tool for getting certificates and their "
      ++ "corresponding bundles from a cfssl server.\n"
      ++ "Intended to have its output piped into `cfssljson`, which will parse it "
      ++ "and turn it into files.\n\n"
      ++ "For usage instructions, run `")
    ++ prog ++ ascii " --help`\n"

/-- The function `parseArguments`.  It ends the process (`Except.error` with
the exit status) when no argument is given or `flag.Parse` stops; otherwise
it returns the flag values, the contents of the CSR file and the error of
reading it, wrapped. -/
def parseArguments (w : World) : List Event × Except Nat Arguments :=
  if (w.Args0 :: w.Args).length = 1 then
    ([.stderr (banner w.Args0)], .error 1)
  else
    match parseFlags w.Args Flags.defaults with
    | .error fe => ([.flagParse w.Args, .flagFailure fe], .error fe.exitCode)
    | .ok f =>
      ([.flagParse w.Args, .readFile f.csrFile],
        .ok {
          cfsslServerAddress := f.cfsslServer
          csr := (w.ReadFile f.csrFile).data
          csrExpiry := f.expiry
          cfsslProfileName := f.cfsslProfile
          verboseModeEnabled := f.verbose
          e := (w.ReadFile f.csrFile).err.map (fun err => .wrap err (ascii "reading csr file")) })

/-- The error `requestCertificate` builds for a status other than 200. -/
def statusError (code : Int) : GoError :=
  .msg (ascii "http status: got " ++ ascii (toString code) ++ ascii ", want 200")

/-- The error `requestCertificate` builds for a malformed expiry. -/
def expiryError : GoError :=
  .wrap (.msg (ascii ("Expiry has the wrong format - It should contain a time duration "
      ++ "in the form understood by Go's time package"))) (ascii "expiry format")

/-- The function `requestCertificate`. -/
def requestCertificate (w : World) (cfsslServer csr csrExpiry cfsslProfileName : GoString) :
    List Event × Result :=
  let request : ApiCertificateRequest :=
    { Hosts := none
      CertificateRequest := csr
      Expiry := csrExpiry
      Profile := cfsslProfileName
      Bundle := true }
  if csrExpiry ≠ [] ∧ reExpiry.MatchString csrExpiry = false then
    ([], ⟨none, some expiryError⟩)
  else
    match Marshal request.fields with
    | .error err => ([], ⟨none, some (.wrap err (ascii "request json marhal"))⟩)
    | .ok encodedJsonRequest =>
      let ev1 : List Event :=
        [.debug (ascii "The JSON request that we're about to send")
            [("encodedJsonRequest", encodedJsonRequest)]]
      let requestUrl := cfsslServer ++ ascii "/api/v1/cfssl/sign"
      let ev2 : List Event :=
        ev1 ++ [.post requestUrl (ascii "application/json") encodedJsonRequest]
      match w.Post requestUrl (ascii "application/json") encodedJsonRequest with
      | .error err => (ev2, ⟨none, some (.wrap err (ascii "http post"))⟩)
      | .ok response =>
        match response.Body.err with
        | some err => (ev2 ++ [.closeBody], ⟨none, some (.wrap err (ascii "reading body"))⟩)
        | none =>
          let body := response.Body.data
          let ev3 : List Event :=
            ev2 ++ [.debug (ascii "Response info")
              [("statusCode", ascii (toString response.StatusCode)),
               ("rawResponseBody", body)]]
          -- the assignment to `err` on a status other than 200 is never read:
          -- the function returns `body, nil`
          let _err : Option GoError :=
            if response.StatusCode ≠ 200 then some (statusError response.StatusCode) else none
          (ev3 ++ [.closeBody], ⟨some body, none⟩)

/-- The function `main`: the events of the run and the exit status.
`log.Fatalf` writes the message and exits with status 1. -/
def main (w : World) : Run :=
  match parseArguments w with
  | (ev, .error code) => ⟨ev, code⟩
  | (ev, .ok a) =>
    match a.e with
    | some err => ⟨ev ++ [.fatal (ascii "arg parsing: " ++ err.Error)], 1⟩
    | none =>
      let ev1 := ev ++ [.setLevel false] ++ (if a.verboseModeEnabled then [.setLevel true] else [])
      match requestCertificate w a.cfsslServerAddress a.csr a.csrExpiry a.cfsslProfileName with
      | (ev2, ⟨_, some err⟩) =>
        ⟨ev1 ++ ev2 ++ [.fatal (ascii "request certificate: " ++ err.Error)], 1⟩
      | (ev2, ⟨responseBody, none⟩) =>
        ⟨ev1 ++ ev2 ++ [.stdout (responseBody.getD [])], 0⟩

/-! ## Vocabulary of the properties -/

/-- The text `json.Marshal` produces for the payload of a request. -/
def payload (csr expiry profile : GoString) : GoString :=
  ascii "\x7b\"hosts\":null,\"certificate_request\":" ++ (encodeString csr
    ++ (ascii ",\"expiry\":" ++ (encodeString expiry
    ++ (ascii ",\"profile\":" ++ (encodeString profile ++ ascii ",\"bundle\":true\x7d")))))

/-- The URL `requestCertificate` posts to. -/
def signUrl (cfsslServer : GoString) : GoString := cfsslServer ++ ascii "/api/v1/cfssl/sign"

/-- Everything written to standard output, in order. -/
def stdoutOf : List Event → GoString
  | [] => []
  | .stdout text :: rest => text ++ stdoutOf rest
  | _ :: rest => stdoutOf rest

/-- The calls of `http.Post` among the events. -/
def postsOf (events : List Event) : List Event := events.filter Event.isPost

/-- The form of an expiry in the words of the specification: one digit 1-9,
then any number of digits 0-9, then the letter `h`, and nothing else. -/
def ExpiryForm (s : GoString) : Prop :=
  ∃ (d : Byte) (ds : GoString), s = d :: (ds ++ [(0x68 : Byte)])
    ∧ (0x31 ≤ d.val ∧ d.val ≤ 0x39) ∧ ∀ x ∈ ds, 0x30 ≤ x.val ∧ x.val ≤ 0x39

/-- The file system of the examples: one readable file, `a.csr`. -/
def exampleFiles (path : GoString) : ReadResult :=
  if path = ascii "a.csr" then ⟨ascii "CSR", none⟩
  else ⟨[], some (.msg (ascii "no such file or directory"))⟩

/-- An example run: a well-formed command line and a server that answers
with the given status and body. -/
def exampleWorld (status : Int) (body : GoString) : World :=
  { Args0 := ascii "requester"
    Args := [ascii "--cfssl-server=http://ca", ascii "--csr-file=a.csr", ascii "--expiry=24h"]
    ReadFile := exampleFiles
    Post := fun _ _ _ => .ok ⟨status, ⟨body, none⟩⟩ }

/-- An example run whose CSR file does not exist. -/
def missingFileWorld : World :=
  { exampleWorld 200 (ascii "ok") with
    Args := [ascii "--cfssl-server=http://ca", ascii "--csr-file=missing.csr"] }

/-- An example run whose server cannot be reached. -/
def unreachableWorld : World :=
  { exampleWorld 200 (ascii "ok") with
    Post := fun _ _ _ => .error (.msg (ascii "connection refused")) }

/-- An example run in which `-h` follows the name of a CSR file that does not
exist. -/
def helpWorld : World :=
  { exampleWorld 200 (ascii "ok") with
    Args := [ascii "--csr-file=missing.csr", ascii "-h"] }

/-- The file system of the PEM example: one readable file, `b.csr`, whose
contents have line breaks and bytes that JSON escapes. -/
def pemFiles (path : GoString) : ReadResult :=
  if path = ascii "b.csr" then
    ⟨ascii "-----BEGIN-----\nMIIB<&>\"\\\n-----END-----\n", none⟩
  else ⟨[], some (.msg (ascii "no such file or directory"))⟩

/-- An example run on the PEM file, with an expiry and with a profile name
outside ASCII, against a server that cannot be reached. -/
def pemWorld : World :=
  { Args0 := ascii "requester"
    Args := [ascii "--cfssl-server=http://ca", ascii "--csr-file", ascii "b.csr",
      ascii "--expiry=8760h", ascii "--cfssl-profile", [0x73, 0xC3, 0xA9]]
    ReadFile := pemFiles
    Post := fun _ _ _ => .error (.msg (ascii "connection refused")) }

/-! # Properties -/


/-- Serializing the request struct gives the payload text, and never an
error. -/
theorem Marshal_fields (csr expiry profile : GoString) :
    Marshal (ApiCertificateRequest.fields ⟨none, csr, expiry, profile, true⟩)
      = .ok (payload csr expiry profile) := by
  simp only [ApiCertificateRequest.fields, Marshal, marshalFields, marshalValue, joinComma, payload]
  congr 1
  simp only [List.append_assoc, List.cons_append]
  rfl

/-- A malformed expiry ends `requestCertificate` at once. -/
theorem requestCertificate_reject (w : World) (cfsslServer csr csrExpiry cfsslProfileName : GoString)
    (hne : csrExpiry ≠ []) (hre : reExpiry.MatchString csrExpiry = false) :
    requestCertificate w cfsslServer csr csrExpiry cfsslProfileName
      = ([], ⟨none, some expiryError⟩) := by
  simp [requestCertificate, hne, hre]

/-- The course of `requestCertificate` once the expiry has passed. -/
theorem requestCertificate_pass (w : World) (cfsslServer csr csrExpiry cfsslProfileName : GoString)
    (h : csrExpiry = [] ∨ reExpiry.MatchString csrExpiry = true) :
    requestCertificate w cfsslServer csr csrExpiry cfsslProfileName =
      match w.Post (signUrl cfsslServer) (ascii "application/json")
          (payload csr csrExpiry cfsslProfileName) with
      | .error err =>
        ([.debug (ascii "The JSON request that we're about to send")
            [("encodedJsonRequest", payload csr csrExpiry cfsslProfileName)],
          .post (signUrl cfsslServer) (ascii "application/json")
            (payload csr csrExpiry cfsslProfileName)],
          ⟨none, some (.wrap err (ascii "http post"))⟩)
      | .ok response =>
        match response.Body.err with
        | some err =>
          ([.debug (ascii "The JSON request that we're about to send")
              [("encodedJsonRequest", payload csr csrExpiry cfsslProfileName)],
            .post (signUrl cfsslServer) (ascii "application/json")
              (payload csr csrExpiry cfsslProfileName),
            .closeBody],
            ⟨none, some (.wrap err (ascii "reading body"))⟩)
        | none =>
          ([.debug (ascii "The JSON request that we're about to send")
              [("encodedJsonRequest", payload csr csrExpiry cfsslProfileName)],
            .post (signUrl cfsslServer) (ascii "application/json")
              (payload csr csrExpiry cfsslProfileName),
            .debug (ascii "Response info")
              [("statusCode", ascii (toString response.StatusCode)),
               ("rawResponseBody", response.Body.data)],
            .closeBody],
            ⟨some response.Body.data, none⟩) := by
  have hc : ¬ (csrExpiry ≠ [] ∧ reExpiry.MatchString csrExpiry = false) := by
    rcases h with h | h
    · simp [h]
    · simp [h]
  unfold requestCertificate
  simp only [hc, if_false, Marshal_fields, signUrl]
  cases hp : w.Post (cfsslServer ++ ascii "/api/v1/cfssl/sign") (ascii "application/json")
      (payload csr csrExpiry cfsslProfileName) with
  | error err => simp
  | ok response =>
    cases hb : response.Body.err with
    | some err => simp [hb]
    | none => simp [hb]

/-- What `parseArguments` does and returns when it returns normally. -/
theorem parseArguments_ok (w : World) (ev : List Event) (a : Arguments)
    (h : parseArguments w = (ev, .ok a)) :
    ∃ f, parseFlags w.Args Flags.defaults = .ok f
      ∧ ev = [.flagParse w.Args, .readFile f.csrFile]
      ∧ a = { cfsslServerAddress := f.cfsslServer
              csr := (w.ReadFile f.csrFile).data
              csrExpiry := f.expiry
              cfsslProfileName := f.cfsslProfile
              verboseModeEnabled := f.verbose
              e := (w.ReadFile f.csrFile).err.map (fun err => .wrap err (ascii "reading csr file")) } := by
  unfold parseArguments at h
  split at h
  · simp at h
  · cases hf : parseFlags w.Args Flags.defaults with
    | error fe => simp [hf] at h
    | ok f =>
      simp only [hf, Prod.mk.injEq, Except.ok.injEq] at h
      exact ⟨f, rfl, h.1.symm, h.2.symm⟩

/-- C1 (code at the failing input): on a response with status 500 and body
`oops`, `requestCertificate` returns the body with a nil error, and `main`
prints the body and exits with status 0. -/
theorem requestCertificate_status_500_nil_error :
    (requestCertificate (exampleWorld 500 (ascii "oops")) (ascii "http://ca") (ascii "CSR")
        (ascii "24h") []).2 = ⟨some (ascii "oops"), none⟩
      ∧ (main (exampleWorld 500 (ascii "oops"))).exit = 0
      ∧ stdoutOf (main (exampleWorld 500 (ascii "oops"))).events = ascii "oops" := by
  decide

/-- C3: a non-empty expiry that fails validation makes `requestCertificate`
return a nil body and the error labelled `expiry format`, with no event at
all: nothing is serialized or logged and `http.Post` is not called. -/
theorem expiry_rejected_before_network (w : World)
    (cfsslServer csr csrExpiry cfsslProfileName : GoString)
    (hne : csrExpiry ≠ []) (hre : reExpiry.MatchString csrExpiry = false) :
    (requestCertificate w cfsslServer csr csrExpiry cfsslProfileName).2.body = none
      ∧ (requestCertificate w cfsslServer csr csrExpiry cfsslProfileName).2.err
          = some expiryError
      ∧ expiryError.label = some (ascii "expiry format")
      ∧ (requestCertificate w cfsslServer csr csrExpiry cfsslProfileName).1 = []
      ∧ postsOf (requestCertificate w cfsslServer csr csrExpiry cfsslProfileName).1 = [] := by
  rw [requestCertificate_reject w cfsslServer csr csrExpiry cfsslProfileName hne hre]
  exact ⟨rfl, rfl, rfl, rfl, rfl⟩

/-- Witness of C3 at the expiry `0h`. -/
theorem expiry_rejected_before_network_witness :
    (requestCertificate unreachableWorld (ascii "http://ca") (ascii "CSR") (ascii "0h") []).2.body
        = none
      ∧ (requestCertificate unreachableWorld (ascii "http://ca") (ascii "CSR") (ascii "0h") []).2.err
          = some expiryError
      ∧ expiryError.label = some (ascii "expiry format")
      ∧ (requestCertificate unreachableWorld (ascii "http://ca") (ascii "CSR") (ascii "0h") []).1
          = []
      ∧ postsOf (requestCertificate unreachableWorld (ascii "http://ca") (ascii "CSR")
          (ascii "0h") []).1 = [] :=
  expiry_rejected_before_network unreachableWorld (ascii "http://ca") (ascii "CSR") (ascii "0h") []
    (by decide) (by decide)

/-- C5: when the expiry passes and the server answers with status 200 and a
readable body, `requestCertificate` returns exactly the body with a nil
error; and a run of `main` whose arguments are these prints exactly the body
to standard output and exits with status 0. -/
theorem status_200_returns_body (w : World)
    (cfsslServer csr csrExpiry cfsslProfileName : GoString) (response : Response)
    (hexp : csrExpiry = [] ∨ reExpiry.MatchString csrExpiry = true)
    (hpost : w.Post (signUrl cfsslServer) (ascii "application/json")
      (payload csr csrExpiry cfsslProfileName) = .ok response)
    (hbody : response.Body.err = none) (hstatus : response.StatusCode = 200) :
    (requestCertificate w cfsslServer csr csrExpiry cfsslProfileName).2
        = ⟨some response.Body.data, none⟩
      ∧ ∀ (ev : List Event) (verbose : Bool),
          parseArguments w
            = (ev, .ok ⟨cfsslServer, csr, csrExpiry, cfsslProfileName, verbose, none⟩) →
          (main w).exit = 0 ∧ stdoutOf (main w).events = response.Body.data := by
  have hrc := requestCertificate_pass w cfsslServer csr csrExpiry cfsslProfileName hexp
  simp only [hpost, hbody] at hrc
  refine ⟨by rw [hrc], ?_⟩
  intro ev verbose hargs
  obtain ⟨f, _, hev, _⟩ := parseArguments_ok w ev _ hargs
  have hstatus' := hstatus
  unfold main
  simp only [hargs, hrc]
  subst hev
  cases verbose <;> simp [stdoutOf]

/-- Witness of C5: the server answers 200 with the body `{"success":true}`. -/
theorem status_200_returns_body_witness :
    (requestCertificate (exampleWorld 200 (ascii "\x7b\"success\":true\x7d")) (ascii "http://ca")
        (ascii "CSR") (ascii "24h") []).2 = ⟨some (ascii "\x7b\"success\":true\x7d"), none⟩
      ∧ (main (exampleWorld 200 (ascii "\x7b\"success\":true\x7d"))).exit = 0
      ∧ stdoutOf (main (exampleWorld 200 (ascii "\x7b\"success\":true\x7d"))).events
          = ascii "\x7b\"success\":true\x7d" :=
  have h := status_200_returns_body (exampleWorld 200 (ascii "\x7b\"success\":true\x7d"))
    (ascii "http://ca") (ascii "CSR") (ascii "24h") [] ⟨200, ⟨ascii "\x7b\"success\":true\x7d", none⟩⟩
    (Or.inr (by decide)) rfl rfl rfl
  ⟨h.1, h.2 [.flagParse (exampleWorld 200 (ascii "\x7b\"success\":true\x7d")).Args,
      .readFile (ascii "a.csr")] false rfl⟩

/-- The calls of `http.Post` that `requestCertificate` makes once the expiry
has passed: exactly one. -/
theorem posts_after_pass (w : World)
    (cfsslServer csr csrExpiry cfsslProfileName : GoString)
    (hexp : csrExpiry = [] ∨ reExpiry.MatchString csrExpiry = true) :
    postsOf (requestCertificate w cfsslServer csr csrExpiry cfsslProfileName).1
      = [.post (cfsslServer ++ ascii "/api/v1/cfssl/sign") (ascii "application/json")
          (payload csr csrExpiry cfsslProfileName)] := by
  have hrc := requestCertificate_pass w cfsslServer csr csrExpiry cfsslProfileName hexp
  simp only [signUrl] at hrc
  rw [hrc]
  cases hp : w.Post (cfsslServer ++ ascii "/api/v1/cfssl/sign") (ascii "application/json")
      (payload csr csrExpiry cfsslProfileName) with
  | error err => simp [postsOf, Event.isPost]
  | ok response =>
    cases hb : response.Body.err with
    | some err => simp [postsOf, Event.isPost, hb]
    | none => simp [postsOf, Event.isPost, hb]

/-- C6: when the expiry passes, `requestCertificate` calls `http.Post`
exactly once, with the server string followed by `/api/v1/cfssl/sign` as the
URL, `application/json` as the content type and the serialized payload as
the body; when that call fails the result is a nil body and the failure
wrapped as `http post`, and there is still only the one call. -/
theorem one_post_to_sign_url (w : World)
    (cfsslServer csr csrExpiry cfsslProfileName : GoString)
    (hexp : csrExpiry = [] ∨ reExpiry.MatchString csrExpiry = true) :
    Marshal (ApiCertificateRequest.fields ⟨none, csr, csrExpiry, cfsslProfileName, true⟩)
        = .ok (payload csr csrExpiry cfsslProfileName)
      ∧ postsOf (requestCertificate w cfsslServer csr csrExpiry cfsslProfileName).1
          = [.post (cfsslServer ++ ascii "/api/v1/cfssl/sign") (ascii "application/json")
              (payload csr csrExpiry cfsslProfileName)]
      ∧ ∀ err, w.Post (cfsslServer ++ ascii "/api/v1/cfssl/sign") (ascii "application/json")
            (payload csr csrExpiry cfsslProfileName) = .error err →
          (requestCertificate w cfsslServer csr csrExpiry cfsslProfileName).2
              = ⟨none, some (.wrap err (ascii "http post"))⟩
            ∧ (GoError.wrap err (ascii "http post")).label = some (ascii "http post") := by
  have hrc := requestCertificate_pass w cfsslServer csr csrExpiry cfsslProfileName hexp
  simp only [signUrl] at hrc
  refine ⟨Marshal_fields _ _ _, posts_after_pass w _ _ _ _ hexp, ?_⟩
  · intro err hp
    rw [hrc, hp]
    exact ⟨rfl, rfl⟩

/-- Witness of C6: a server that cannot be reached. -/
theorem one_post_to_sign_url_witness :
    postsOf (requestCertificate unreachableWorld (ascii "http://ca") (ascii "CSR") (ascii "24h")
        []).1
      = [.post (ascii "http://ca" ++ ascii "/api/v1/cfssl/sign") (ascii "application/json")
          (payload (ascii "CSR") (ascii "24h") [])]
    ∧ (requestCertificate unreachableWorld (ascii "http://ca") (ascii "CSR") (ascii "24h") []).2
      = ⟨none, some (.wrap (.msg (ascii "connection refused")) (ascii "http post"))⟩ :=
  have h := one_post_to_sign_url unreachableWorld (ascii "http://ca") (ascii "CSR") (ascii "24h") []
    (Or.inr (by decide))
  ⟨h.2.1, (h.2.2 (.msg (ascii "connection refused")) rfl).1⟩

/-- C7 (as stated, refuted): the command line `--csr-file=missing.csr -h` is
not empty and names a file that cannot be read, yet `parseArguments` does not
return: `flag.Parse` ends the process at `-h`, before the file is read, and
the run exits with status 0. -/
theorem help_flag_ends_run_before_read :
    helpWorld.Args ≠ []
      ∧ parseFlags [ascii "--csr-file=missing.csr"] Flags.defaults
          = .ok { Flags.defaults with csrFile := ascii "missing.csr" }
      ∧ (helpWorld.ReadFile (ascii "missing.csr")).err
          = some (.msg (ascii "no such file or directory"))
      ∧ parseArguments helpWorld
          = ([.flagParse [ascii "--csr-file=missing.csr", ascii "-h"], .flagFailure .help],
              .error 0)
      ∧ main helpWorld
          = ⟨[.flagParse [ascii "--csr-file=missing.csr", ascii "-h"], .flagFailure .help], 0⟩ :=
  ⟨by decide, rfl, rfl, rfl, rfl⟩

/-- C7 (amended): when arguments are given that `flag.Parse` accepts, and the
file named by `--csr-file` cannot be read, `parseArguments` returns the read
error wrapped as `reading csr file`, and `main` logs it and exits with
status 1 without any call of `http.Post`. -/
theorem unreadable_csr_file_is_fatal (w : World) (f : Flags) (err : GoError)
    (hargs : w.Args ≠ [])
    (hflags : parseFlags w.Args Flags.defaults = .ok f)
    (hread : (w.ReadFile f.csrFile).err = some err) :
    (∃ a, (parseArguments w).2 = .ok a
        ∧ a.e = some (.wrap err (ascii "reading csr file"))
        ∧ (GoError.wrap err (ascii "reading csr file")).label = some (ascii "reading csr file"))
      ∧ main w = ⟨[.flagParse w.Args, .readFile f.csrFile,
          .fatal (ascii "arg parsing: " ++ (ascii "reading csr file" ++ ascii ": " ++ err.Error))], 1⟩
      ∧ (main w).exit ≠ 0
      ∧ postsOf (main w).events = [] := by
  have hlen : ¬ (w.Args0 :: w.Args).length = 1 := by
    cases hA : w.Args with
    | nil => exact absurd hA hargs
    | cons a as => simp
  have hpa : parseArguments w = ([.flagParse w.Args, .readFile f.csrFile],
      .ok { cfsslServerAddress := f.cfsslServer
            csr := (w.ReadFile f.csrFile).data
            csrExpiry := f.expiry
            cfsslProfileName := f.cfsslProfile
            verboseModeEnabled := f.verbose
            e := some (.wrap err (ascii "reading csr file")) }) := by
    unfold parseArguments
    simp only [hlen, if_false, hflags, hread, Option.map]
  have hmain : main w = ⟨[.flagParse w.Args, .readFile f.csrFile,
      .fatal (ascii "arg parsing: " ++ (ascii "reading csr file" ++ ascii ": " ++ err.Error))], 1⟩ := by
    unfold main
    simp only [hpa, GoError.Error]
    rfl
  refine ⟨⟨_, by rw [hpa], rfl, rfl⟩, hmain, ?_, ?_⟩
  · rw [hmain]; simp
  · rw [hmain]; simp [postsOf, Event.isPost]

/-- Witness of C7 (amended): the command line names the file `missing.csr`;
the run reads no other file, posts nothing and ends in the fatal log
line. -/
theorem unreadable_csr_file_is_fatal_witness :
    main missingFileWorld
        = ⟨[.flagParse [ascii "--cfssl-server=http://ca", ascii "--csr-file=missing.csr"],
            .readFile (ascii "missing.csr"),
            .fatal (ascii "arg parsing: reading csr file: no such file or directory")], 1⟩
      ∧ (main missingFileWorld).exit ≠ 0 ∧ postsOf (main missingFileWorld).events = [] :=
  have h := unreadable_csr_file_is_fatal missingFileWorld
    ⟨ascii "http://ca", ascii "missing.csr", [], [], false⟩
    (.msg (ascii "no such file or directory")) (by decide) rfl rfl
  ⟨h.2.1, h.2.2.1, h.2.2.2⟩

/-- C9: with no arguments `parseArguments` writes the usage banner (the
program description and the hint to run the program with `--help`) to the
error stream and ends the process with status 1, and nothing else happens:
the flags are not parsed, no file is read, nothing is posted.  With at least
one argument the first thing that happens is the parsing of the flags, and
nothing is written to the error stream by `parseArguments`.  The flags are
then parsed: a value given after `=` or as the next argument, with one dash
or two, reaches the result, and so does the boolean flag; an argument that is
not a flag stops the parsing without the banner; a flag that is not defined
ends the process with status 2. -/
theorem no_arguments_prints_banner (Args0 server path expiry profile : GoString)
    (ReadFile : GoString → ReadResult)
    (Post : GoString → GoString → GoString → Except GoError Response) :
    parseArguments ⟨Args0, [], ReadFile, Post⟩
        = ([.stderr (ascii ("cfssl-certificate-requester: A tool for getting certificates "
              ++ "and their corresponding bundles from a cfssl server.\n"
              ++ "Intended to have its output piped into `cfssljson`, which will parse it "
              ++ "and turn it into files.\n\nFor usage instructions, run `")
            ++ Args0 ++ ascii " --help`\n")], .error 1)
      ∧ main ⟨Args0, [], ReadFile, Post⟩
        = ⟨[.stderr (ascii ("cfssl-certificate-requester: A tool for getting certificates "
              ++ "and their corresponding bundles from a cfssl server.\n"
              ++ "Intended to have its output piped into `cfssljson`, which will parse it "
              ++ "and turn it into files.\n\nFor usage instructions, run `")
            ++ Args0 ++ ascii " --help`\n")], 1⟩
      ∧ (∀ (a : GoString) (as : List GoString),
          (parseArguments ⟨Args0, a :: as, ReadFile, Post⟩).1.head? = some (.flagParse (a :: as))
            ∧ ∀ text, Event.stderr text ∉ (parseArguments ⟨Args0, a :: as, ReadFile, Post⟩).1)
      ∧ parseArguments ⟨Args0, [ascii "--cfssl-server", server, ascii "-csr-file=" ++ path,
            ascii "--expiry=" ++ expiry, ascii "-cfssl-profile", profile, ascii "-verbose"],
            ReadFile, Post⟩
          = ([.flagParse [ascii "--cfssl-server", server, ascii "-csr-file=" ++ path,
                ascii "--expiry=" ++ expiry, ascii "-cfssl-profile", profile, ascii "-verbose"],
              .readFile path],
            .ok ⟨server, (ReadFile path).data, expiry, profile, true,
              (ReadFile path).err.map (fun err => .wrap err (ascii "reading csr file"))⟩)
      ∧ parseArguments ⟨Args0, [ascii "unrelated", ascii "--expiry=1h"], ReadFile, Post⟩
          = ([.flagParse [ascii "unrelated", ascii "--expiry=1h"], .readFile []],
            .ok ⟨[], (ReadFile []).data, [], [], false,
              (ReadFile []).err.map (fun err => .wrap err (ascii "reading csr file"))⟩)
      ∧ parseArguments ⟨Args0, [ascii "--bogus"], ReadFile, Post⟩
          = ([.flagParse [ascii "--bogus"], .flagFailure (.notDefined (ascii "bogus"))],
            .error 2) := by
  refine ⟨rfl, rfl, ?_, rfl, rfl, rfl⟩
  intro a as
  unfold parseArguments
  simp only [List.length_cons, Nat.add_eq_right, Nat.add_eq_zero, one_ne_zero, and_false,
    if_false, Nat.succ_ne_zero]
  cases hf : parseFlags (a :: as) Flags.defaults with
  | error fe => simp
  | ok f => simp

/-- C10: serializing the payload never fails, so `requestCertificate` never
returns the error labelled `request json marhal`, and every input that
passes the expiry validation reaches the call of `http.Post`. -/
theorem marshal_never_fails (w : World) (cfsslServer csr csrExpiry cfsslProfileName : GoString) :
    (∃ enc, Marshal (ApiCertificateRequest.fields ⟨none, csr, csrExpiry, cfsslProfileName, true⟩)
        = .ok enc)
      ∧ (requestCertificate w cfsslServer csr csrExpiry cfsslProfileName).2.err.bind GoError.label
          ≠ some (ascii "request json marhal")
      ∧ ((csrExpiry = [] ∨ reExpiry.MatchString csrExpiry = true) →
          postsOf (requestCertificate w cfsslServer csr csrExpiry cfsslProfileName).1 ≠ []) := by
  refine ⟨⟨_, Marshal_fields _ _ _⟩, ?_, ?_⟩
  · have h1 : ascii "http post" ≠ ascii "request json marhal" := by decide
    have h2 : ascii "reading body" ≠ ascii "request json marhal" := by decide
    have h3 : ascii "expiry format" ≠ ascii "request json marhal" := by decide
    by_cases hexp : csrExpiry = [] ∨ reExpiry.MatchString csrExpiry = true
    · rw [requestCertificate_pass w cfsslServer csr csrExpiry cfsslProfileName hexp]
      cases hp : w.Post (signUrl cfsslServer) (ascii "application/json")
          (payload csr csrExpiry cfsslProfileName) with
      | error err => simpa [GoError.label] using h1
      | ok response =>
        cases hb : response.Body.err with
        | some err => simpa [hb, GoError.label] using h2
        | none => simp [hb]
    · have hne : csrExpiry ≠ [] := fun h => hexp (Or.inl h)
      have hre : reExpiry.MatchString csrExpiry = false := by
        cases h : reExpiry.MatchString csrExpiry with
        | true => exact absurd (Or.inr h) hexp
        | false => rfl
      rw [requestCertificate_reject w cfsslServer csr csrExpiry cfsslProfileName hne hre]
      simpa [expiryError, GoError.label] using h3
  · intro hexp
    rw [(posts_after_pass w cfsslServer csr csrExpiry cfsslProfileName hexp)]
    simp

/-- Witness of C10: an empty expiry passes and the request is posted. -/
theorem marshal_never_fails_witness :
    postsOf (requestCertificate unreachableWorld (ascii "http://ca") (ascii "CSR") [] []).1 ≠ [] :=
  (marshal_never_fails unreachableWorld (ascii "http://ca") (ascii "CSR") [] []).2.2
    (Or.inl rfl)

/-! ## Decoding a rune -/

/-- An ASCII byte decodes to itself, with width 1. -/
theorem decodeRune_ascii (b : Byte) (t : GoString) (h : b.val < 0x80) :
    decodeRune (b :: t) = (b.val, 1) := by
  simp [decodeRune, seqLen, h]

/-- The accept range of a second byte lies among the continuation bytes, and
is narrower after the leading bytes E0, ED, F0 and F4. -/
theorem acceptRange_bounds (b : Byte) :
    0x80 ≤ (acceptRange b).1 ∧ (acceptRange b).2 ≤ 0xBF
      ∧ (b.val = 0xE0 → (acceptRange b).1 = 0xA0) ∧ (b.val = 0xF0 → (acceptRange b).1 = 0x90)
      ∧ (b.val = 0xED → (acceptRange b).2 = 0x9F) ∧ (b.val = 0xF4 → (acceptRange b).2 = 0x8F) := by
  unfold acceptRange
  split_ifs <;> simp <;> omega

/-- The shapes of a decoded rune that starts with a byte from 0x80 on: an
encoding error of width 1, or a well-formed sequence of two, three or four
bytes. -/
theorem decodeRune_cases (b : Byte) (t : GoString) (h : 0x80 ≤ b.val) :
    decodeRune (b :: t) = (RuneError, 1)
    ∨ (∃ b1 t1, t = b1 :: t1 ∧ 0xC2 ≤ b.val ∧ b.val < 0xE0 ∧ 0x80 ≤ b1.val ∧ b1.val ≤ 0xBF
        ∧ decodeRune (b :: t) = ((b.val % 32) * 64 + b1.val % 64, 2))
    ∨ (∃ b1 b2 t2, t = b1 :: b2 :: t2 ∧ 0xE0 ≤ b.val ∧ b.val < 0xF0
        ∧ 0x80 ≤ b1.val ∧ b1.val ≤ 0xBF ∧ 0x80 ≤ b2.val ∧ b2.val ≤ 0xBF
        ∧ (b.val = 0xE0 → 0xA0 ≤ b1.val) ∧ (b.val = 0xED → b1.val ≤ 0x9F)
        ∧ decodeRune (b :: t) = ((b.val % 16) * 4096 + (b1.val % 64) * 64 + b2.val % 64, 3))
    ∨ (∃ b1 b2 b3 t3, t = b1 :: b2 :: b3 :: t3 ∧ 0xF0 ≤ b.val ∧ b.val < 0xF5
        ∧ 0x80 ≤ b1.val ∧ b1.val ≤ 0xBF ∧ 0x80 ≤ b2.val ∧ b2.val ≤ 0xBF
        ∧ 0x80 ≤ b3.val ∧ b3.val ≤ 0xBF
        ∧ (b.val = 0xF0 → 0x90 ≤ b1.val) ∧ (b.val = 0xF4 → b1.val ≤ 0x8F)
        ∧ decodeRune (b :: t) = ((b.val % 8) * 262144 + (b1.val % 64) * 4096
            + (b2.val % 64) * 64 + b3.val % 64, 4)) := by
  obtain ⟨ha1, ha2, ha3, ha4, ha5, ha6⟩ := acceptRange_bounds b
  by_cases h0 : b.val < 0xC2
  · left
    have hs : seqLen b = 0 := by unfold seqLen; split_ifs <;> omega
    simp [decodeRune, hs]
  by_cases h2 : b.val < 0xE0
  · have hs : seqLen b = 2 := by unfold seqLen; split_ifs <;> omega
    rcases t with _ | ⟨b1, t1⟩
    · left; simp [decodeRune, hs]
    · by_cases hr : b1.val < (acceptRange b).1 ∨ (acceptRange b).2 < b1.val
      · left; simp [decodeRune, hs, hr]
      · right; left
        refine ⟨b1, t1, rfl, by omega, h2, by omega, by omega, ?_⟩
        simp [decodeRune, hs, hr]
  by_cases h3 : b.val < 0xF0
  · have hs : seqLen b = 3 := by unfold seqLen; split_ifs <;> omega
    rcases t with _ | ⟨b1, t1⟩
    · left; simp [decodeRune, hs]
    · by_cases hr : b1.val < (acceptRange b).1 ∨ (acceptRange b).2 < b1.val
      · left; simp [decodeRune, hs, hr]
      · rcases t1 with _ | ⟨b2, t2⟩
        · left; simp [decodeRune, hs, hr]
        · by_cases hc2 : isCont b2 = true
          · right; right; left
            have hc2' := hc2
            simp only [isCont, Bool.and_eq_true, decide_eq_true_eq] at hc2'
            refine ⟨b1, b2, t2, rfl, by omega, h3, by omega, by omega, hc2'.1, hc2'.2,
              fun he => by have := ha3 he; omega, fun he => by have := ha5 he; omega, ?_⟩
            simp [decodeRune, hs, hr, hc2]
          · left; simp [decodeRune, hs, hr, hc2]
  by_cases h4 : b.val < 0xF5
  · have hs : seqLen b = 4 := by unfold seqLen; split_ifs <;> omega
    rcases t with _ | ⟨b1, t1⟩
    · left; simp [decodeRune, hs]
    · by_cases hr : b1.val < (acceptRange b).1 ∨ (acceptRange b).2 < b1.val
      · left; simp [decodeRune, hs, hr]
      · rcases t1 with _ | ⟨b2, t2⟩
        · left; simp [decodeRune, hs, hr]
        · by_cases hc2 : isCont b2 = true
          · rcases t2 with _ | ⟨b3, t3⟩
            · left; simp [decodeRune, hs, hr, hc2]
            · by_cases hc3 : isCont b3 = true
              · right; right; right
                have hc2' := hc2
                have hc3' := hc3
                simp only [isCont, Bool.and_eq_true, decide_eq_true_eq] at hc2' hc3'
                refine ⟨b1, b2, b3, t3, rfl, by omega, h4, by omega, by omega, hc2'.1, hc2'.2,
                  hc3'.1, hc3'.2, fun he => by have := ha4 he; omega,
                  fun he => by have := ha6 he; omega, ?_⟩
                simp [decodeRune, hs, hr, hc2, hc3]
              · left; simp [decodeRune, hs, hr, hc2, hc3]
          · left; simp [decodeRune, hs, hr, hc2]
  · left
    have hs : seqLen b = 0 := by unfold seqLen; split_ifs <;> omega
    simp [decodeRune, hs]

/-- A byte from 0x80 on never decodes to an ASCII rune. -/
theorem decodeRune_high (b : Byte) (t : GoString) (h : 0x80 ≤ b.val) :
    0x80 ≤ (decodeRune (b :: t)).1 := by
  rcases decodeRune_cases b t h with h1 | ⟨b1, t1, _, _, _, _, _, h1⟩
    | ⟨b1, b2, t2, _, _, _, _, _, _, _, _, _, h1⟩
    | ⟨b1, b2, b3, t3, _, _, _, _, _, _, _, _, _, _, _, h1⟩ <;>
    rw [h1] <;> simp only [RuneError] <;> omega

/-- Decoding a rune of a non-empty string consumes at least one byte. -/
theorem decodeRune_width_pos (b : Byte) (t : GoString) : 1 ≤ (decodeRune (b :: t)).2 := by
  by_cases h : b.val < 0x80
  · rw [decodeRune_ascii b t h]
  · rcases decodeRune_cases b t (by omega) with h1 | ⟨b1, t1, _, _, _, _, _, h1⟩
      | ⟨b1, b2, t2, _, _, _, _, _, _, _, _, _, h1⟩
      | ⟨b1, b2, b3, t3, _, _, _, _, _, _, _, _, _, _, _, h1⟩ <;>
      rw [h1] <;> simp

/-! ## The expiry expression -/

/-- A step over a rune with a test that only ASCII runes pass looks at the
first byte alone. -/
theorem stepIf_ascii (p : Nat → Bool) (hp : ∀ c, p c = true → c < 0x80) (off : Nat) (b : Byte)
    (t : GoString) :
    stepIf p ⟨off, b :: t⟩ = if p b.val = true then [⟨off + 1, t⟩] else [] := by
  by_cases hb : b.val < 0x80
  · simp [stepIf, decodeRune_ascii b t hb]
  · have h1 : p (decodeRune (b :: t)).1 = false := by
      cases hq : p (decodeRune (b :: t)).1 with
      | false => rfl
      | true =>
        have := hp _ hq
        have := decodeRune_high b t (by omega)
        omega
    have h2 : p b.val = false := by
      cases hq : p b.val with
      | false => rfl
      | true => have := hp _ hq; omega
    simp [stepIf, h1, h2]

/-- A step over a rune at the end of the input fails. -/
theorem stepIf_nil (p : Nat → Bool) (off : Nat) : stepIf p ⟨off, []⟩ = [] := rfl

/-- The digits-then-`h` tail of an expiry. -/
theorem iterate_digits (n : Nat) :
    ∀ (off : Nat) (t : GoString),
      (∃ q ∈ iterate (fun m => (Regexp.charClass 0x30 0x39).ends m) n ⟨off, t⟩,
          q.rest = [(0x68 : Byte)])
        ↔ ∃ ds : GoString, ds.length ≤ n ∧ (∀ x ∈ ds, 0x30 ≤ x.val ∧ x.val ≤ 0x39)
            ∧ t = ds ++ [(0x68 : Byte)] := by
  induction n with
  | zero =>
    intro off t
    constructor
    · rintro ⟨q, hq, hrest⟩
      simp only [iterate, List.mem_singleton] at hq
      subst hq
      exact ⟨[], by simp, by simp, by simpa using hrest⟩
    · rintro ⟨ds, hlen, _, ht⟩
      have hnil : ds = [] := List.eq_nil_of_length_eq_zero (by omega)
      subst hnil
      exact ⟨⟨off, t⟩, by simp [iterate], by simpa using ht⟩
  | succ n ih =>
    intro off t
    have hp : ∀ c, (decide (0x30 ≤ c) && decide (c ≤ 0x39)) = true → c < 0x80 := by
      intro c hc
      simp only [Bool.and_eq_true, decide_eq_true_eq] at hc
      omega
    simp only [iterate, List.mem_cons, List.mem_flatMap, Regexp.ends]
    constructor
    · rintro ⟨q, hq | ⟨m, hm, hq⟩, hrest⟩
      · subst hq
        exact ⟨[], by simp, by simp, by simpa using hrest⟩
      · rcases t with _ | ⟨b, t'⟩
        · simp [stepIf_nil] at hm
        · rw [stepIf_ascii _ hp] at hm
          split_ifs at hm with hb
          · simp only [List.mem_singleton] at hm
            subst hm
            obtain ⟨ds, hlen, hds, ht⟩ := (ih (off + 1) t').mp ⟨q, hq, hrest⟩
            simp only [Bool.and_eq_true, decide_eq_true_eq] at hb
            refine ⟨b :: ds, by simp; omega, ?_, by simp [ht]⟩
            intro x hx
            rcases List.mem_cons.mp hx with rfl | hx
            · exact hb
            · exact hds x hx
          · simp at hm
    · rintro ⟨ds, hlen, hds, ht⟩
      rcases ds with _ | ⟨b, ds'⟩
      · exact ⟨⟨off, t⟩, Or.inl rfl, by simpa using ht⟩
      · subst ht
        have hb := hds b (by simp)
        obtain ⟨q, hq, hrest⟩ := (ih (off + 1) (ds' ++ [(0x68 : Byte)])).mpr
          ⟨ds', by simp at hlen; omega, fun x hx => hds x (by simp [hx]), rfl⟩
        refine ⟨q, Or.inr ⟨⟨off + 1, ds' ++ [(0x68 : Byte)]⟩, ?_, hq⟩, hrest⟩
        simp only [List.cons_append]
        rw [stepIf_ascii _ hp]
        simp [hb.1, hb.2]

/-- The search starts at the given offset, and every later start lies
further on. -/
theorem starts_head (fuel : Nat) :
    ∀ (off : Nat) (s : GoString),
      ∃ tail, starts fuel off s = ⟨off, s⟩ :: tail ∧ ∀ q ∈ tail, off < q.off := by
  induction fuel with
  | zero =>
    intro off s
    cases s with
    | nil => exact ⟨[], rfl, by simp⟩
    | cons b t => exact ⟨[], rfl, by simp⟩
  | succ fuel ih =>
    intro off s
    cases s with
    | nil => exact ⟨[], rfl, by simp⟩
    | cons b t =>
      obtain ⟨tail, htail, hoff⟩ := ih (off + (decodeRune (b :: t)).2)
        ((b :: t).drop (decodeRune (b :: t)).2)
      refine ⟨_, rfl, ?_⟩
      intro q hq
      rw [htail] at hq
      have hw := decodeRune_width_pos b t
      rcases List.mem_cons.mp hq with rfl | hq
      · show off < off + (decodeRune (b :: t)).2
        omega
      · have := hoff q hq
        omega

/-- The expression is anchored at the start: a match can only begin at
offset 0. -/
theorem reExpiry_ends_off (q : Pos) (h : q.off ≠ 0) : reExpiry.ends q = [] := by
  simp [reExpiry, Regexp.ends, h]

/-- Whether the expiry expression matches is decided at the start of the
string. -/
theorem reExpiry_MatchString_iff (s : GoString) :
    reExpiry.MatchString s = true ↔ reExpiry.ends ⟨0, s⟩ ≠ [] := by
  obtain ⟨tail, htail, hoff⟩ := starts_head s.length 0 s
  unfold Regexp.MatchString
  rw [htail, List.any_cons, Bool.or_eq_true]
  have htl : (tail.any fun q => !(reExpiry.ends q).isEmpty) = false := by
    rw [List.any_eq_false]
    intro q hq
    have := hoff q hq
    rw [reExpiry_ends_off q (by omega)]
    simp
  rw [htl]
  cases h : reExpiry.ends ⟨0, s⟩ <;> simp

/-- After the digits the expression asks for the letter `h` and the end of
the text. -/
theorem tail_ends (q : Pos) :
    (Regexp.concat (.literal 0x68) .endText).ends q ≠ [] ↔ q.rest = [(0x68 : Byte)] := by
  obtain ⟨off, rest⟩ := q
  have hp : ∀ c, (c == 0x68) = true → c < 0x80 := by
    intro c hc
    simp only [beq_iff_eq] at hc
    omega
  rcases rest with _ | ⟨b, t⟩
  · simp [Regexp.ends, stepIf_nil]
  · simp only [Regexp.ends]
    rw [stepIf_ascii _ hp]
    by_cases hb : b.val = 0x68
    · have hb' : b = (0x68 : Byte) := Fin.ext hb
      subst hb'
      cases t with
      | nil => simp; rfl
      | cons c t' => simp
    · have hb' : b ≠ (0x68 : Byte) := fun h => hb (by rw [h]; rfl)
      simp [hb, hb']

/-- The expression of `requestCertificate` matches exactly the strings of the
form the specification words: a digit 1-9, digits 0-9, the letter `h`. -/
theorem reExpiry_matches_form (s : GoString) :
    reExpiry.MatchString s = true ↔ ExpiryForm s := by
  rw [reExpiry_MatchString_iff]
  have hp : ∀ c, (decide (0x31 ≤ c) && decide (c ≤ 0x39)) = true → c < 0x80 := by
    intro c hc
    simp only [Bool.and_eq_true, decide_eq_true_eq] at hc
    omega
  have hends : reExpiry.ends ⟨0, s⟩
      = ((stepIf (fun c => decide (0x31 ≤ c) && decide (c ≤ 0x39)) ⟨0, s⟩).flatMap
          (fun m => iterate (fun m => (Regexp.charClass 0x30 0x39).ends m) m.rest.length m)).flatMap
          (fun m => (Regexp.concat (.literal 0x68) .endText).ends m) := by
    simp [reExpiry, Regexp.ends, times]
  rw [hends]
  rcases s with _ | ⟨d, t⟩
  · simp only [stepIf_nil, List.flatMap_nil, ne_eq, not_true_eq_false, false_iff]
    rintro ⟨d, ds, h, _⟩
    simp at h
  · rw [stepIf_ascii _ hp]
    by_cases hd : 0x31 ≤ d.val ∧ d.val ≤ 0x39
    · simp only [hd.1, hd.2, decide_True, Bool.and_self, if_true, List.flatMap_cons,
        List.flatMap_nil, List.append_nil]
      rw [ne_eq, List.flatMap_eq_nil_iff]
      simp only [not_forall]
      constructor
      · rintro ⟨q, hq, hne⟩
        obtain ⟨ds, _, hds, ht⟩ := (iterate_digits t.length 1 t).mp ⟨q, hq, (tail_ends q).mp hne⟩
        exact ⟨d, ds, by rw [ht], hd, hds⟩
      · rintro ⟨d', ds, hs, _, hds⟩
        simp only [List.cons.injEq] at hs
        obtain ⟨q, hq, hrest⟩ := (iterate_digits t.length 1 t).mpr
          ⟨ds, by rw [hs.2]; simp, hds, hs.2⟩
        exact ⟨q, hq, (tail_ends q).mpr hrest⟩
    · have hf : (decide (0x31 ≤ d.val) && decide (d.val ≤ 0x39)) = false := by
        simp only [Bool.and_eq_false_iff, decide_eq_false_iff_not]
        by_cases h1 : 0x31 ≤ d.val
        · exact Or.inr (fun h2 => hd ⟨h1, h2⟩)
        · exact Or.inl h1
      simp only [hf, Bool.false_eq_true, if_false, List.flatMap_nil, ne_eq, not_true_eq_false,
        false_iff]
      rintro ⟨d', ds, hs, hd', _⟩
      simp only [List.cons.injEq] at hs
      rw [← hs.1] at hd'
      exact hd hd'

/-- The error labelled `expiry format` comes from the validation of the
expiry and from nowhere else. -/
theorem expiry_label_iff (w : World) (cfsslServer csr csrExpiry cfsslProfileName : GoString) :
    (requestCertificate w cfsslServer csr csrExpiry cfsslProfileName).2.err.bind GoError.label
        = some (ascii "expiry format")
      ↔ csrExpiry ≠ [] ∧ reExpiry.MatchString csrExpiry = false := by
  have h1 : ascii "http post" ≠ ascii "expiry format" := by decide
  have h2 : ascii "reading body" ≠ ascii "expiry format" := by decide
  by_cases hexp : csrExpiry = [] ∨ reExpiry.MatchString csrExpiry = true
  · have hr : ¬ (csrExpiry ≠ [] ∧ reExpiry.MatchString csrExpiry = false) := by
      rcases hexp with h | h
      · simp [h]
      · simp [h]
    rw [requestCertificate_pass w cfsslServer csr csrExpiry cfsslProfileName hexp]
    cases hp : w.Post (signUrl cfsslServer) (ascii "application/json")
        (payload csr csrExpiry cfsslProfileName) with
    | error err => simpa [GoError.label, hr] using h1
    | ok response =>
      cases hb : response.Body.err with
      | some err => simpa [hb, GoError.label, hr] using h2
      | none => simpa [hb] using hr
  · have hne : csrExpiry ≠ [] := fun h => hexp (Or.inl h)
    have hre : reExpiry.MatchString csrExpiry = false := by
      cases h : reExpiry.MatchString csrExpiry with
      | true => exact absurd (Or.inr h) hexp
      | false => rfl
    rw [requestCertificate_reject w cfsslServer csr csrExpiry cfsslProfileName hne hre]
    simp [expiryError, GoError.label, hne, hre]

/-- C2: `requestCertificate` fails with the error labelled `expiry format`
exactly when the expiry is non-empty and is not a digit 1-9, then digits 0-9,
then the letter `h`, with nothing before or after.  So `8760h`, `1h` and the
empty string pass, and `0h`, `24H`, `24`, `-5h`, `24h30m` and `24h` followed
by a newline are rejected. -/
theorem expiry_format_error_iff :
    (∀ (w : World) (cfsslServer csr csrExpiry cfsslProfileName : GoString),
      (requestCertificate w cfsslServer csr csrExpiry cfsslProfileName).2.err.bind GoError.label
          = some (ascii "expiry format")
        ↔ csrExpiry ≠ [] ∧ ¬ ExpiryForm csrExpiry)
    ∧ (∀ (w : World) (cfsslServer csr cfsslProfileName : GoString),
        ∀ e ∈ [ascii "8760h", ascii "1h", []],
          (requestCertificate w cfsslServer csr e cfsslProfileName).2.err.bind GoError.label
            ≠ some (ascii "expiry format"))
    ∧ (∀ (w : World) (cfsslServer csr cfsslProfileName : GoString),
        ∀ e ∈ [ascii "0h", ascii "24H", ascii "24", ascii "-5h", ascii "24h30m", ascii "24h\n"],
          (requestCertificate w cfsslServer csr e cfsslProfileName).2.err.bind GoError.label
            = some (ascii "expiry format")) := by
  refine ⟨?_, ?_, ?_⟩
  · intro w cfsslServer csr csrExpiry cfsslProfileName
    rw [expiry_label_iff, ← reExpiry_matches_form]
    simp
  · intro w cfsslServer csr cfsslProfileName e he
    rw [Ne, expiry_label_iff]
    revert e
    decide
  · intro w cfsslServer csr cfsslProfileName e he
    rw [expiry_label_iff]
    revert e
    decide

/-! ## Reading back an encoded string -/

/-- A byte is the byte of its own value. -/
theorem ofNat_val (b : Byte) : (Fin.ofNat b.val : Byte) = b := by
  apply Fin.ext
  show b.val % 256 = b.val
  omega

/-- The value of the digit written for a number below 16 is the number. -/
theorem hexVal_hexDigit (n : Nat) (h : n < 16) : hexVal (hexDigit n) = some n := by
  interval_cases n <;> rfl

/-- A byte from the space on that is neither quote nor backslash stands for
itself in a string literal. -/
theorem unquoteStep_copy (b : Byte) (X : GoString) (h0 : 0x20 ≤ b.val) (h1 : b.val ≠ 0x22)
    (h2 : b.val ≠ 0x5C) : unquoteStep (b :: X) = .more [b] X := by
  have h3 : ¬ b.val < 0x20 := by omega
  simp [unquoteStep, h1, h2, h3]

/-- A `\u` escape of a code point that is not a surrogate reads back as the
UTF-8 encoding of the code point. -/
theorem unquoteStep_u (h1 h2 h3 h4 : Byte) (rr : Nat) (X : GoString)
    (hu : getu4 h1 h2 h3 h4 = some rr) (hs : ¬ (0xD800 ≤ rr ∧ rr < 0xE000)) :
    unquoteStep (0x5C :: 0x75 :: h1 :: h2 :: h3 :: h4 :: X) = .more (encodeRune rr) X := by
  have hx : ((0x5C : Byte) : Nat) = 0x5C := rfl
  have hy : ((0x75 : Byte) : Nat) = 0x75 := rfl
  simp [unquoteStep, unquoteU, hx, hy, hu, hs]

/-- The escape sequence written for an ASCII byte reads back as that byte. -/
theorem unquoteStep_escape (b : Byte) (X : GoString) (hb : b.val < 0x80) :
    unquoteStep (escapeByte b ++ X) = .more [b] X := by
  have hx : ((0x5C : Byte) : Nat) = 0x5C := rfl
  unfold escapeByte
  split_ifs with h1 h2 h3 h4
  · have h5 : b.val ≠ 0x75 := by omega
    have h6 : simpleEscape b = some b := by
      unfold simpleEscape
      rcases h1 with h1 | h1 <;> simp [h1]
    simp [unquoteStep, hx, h5, h6]
  · have hb' : b = (0x0A : Byte) := Fin.ext h2
    subst hb'
    rfl
  · have hb' : b = (0x0D : Byte) := Fin.ext h3
    subst hb'
    rfl
  · have hb' : b = (0x09 : Byte) := Fin.ext h4
    subst hb'
    rfl
  · have hq : b.val / 16 < 16 := by omega
    have hr : b.val % 16 < 16 := by omega
    have hu : getu4 0x30 0x30 (hexDigit (b.val / 16)) (hexDigit (b.val % 16)) = some b.val := by
      have hz : hexVal (0x30 : Byte) = some 0 := rfl
      simp only [getu4, hz, hexVal_hexDigit _ hq, hexVal_hexDigit _ hr]
      congr 1
      omega
    have he : encodeRune b.val = [b] := by
      simp [encodeRune, hb, ofNat_val]
    have := unquoteStep_u 0x30 0x30 (hexDigit (b.val / 16)) (hexDigit (b.val % 16)) b.val X hu
      (by omega)
    rw [he] at this
    simpa using this

/-- One step that yields output, seen from the loop. -/
theorem unquoteLoop_more (F : Nat) (s out Y : GoString) (h : unquoteStep s = .more out Y) :
    unquoteLoop (F + 1) s = consOut out (unquoteLoop F Y) := by
  simp [unquoteLoop, h]

/-- The closing quote ends the loop. -/
theorem unquoteLoop_quote (F : Nat) (Y : GoString) :
    unquoteLoop (F + 1) ((0x22 : Byte) :: Y) = some ([], Y) := by
  have hx : ((0x22 : Byte) : Nat) = 0x22 := rfl
  simp [unquoteLoop, unquoteStep, hx]

/-- Output put in front twice is the concatenation put in front once. -/
theorem consOut_consOut (a b : GoString) (o : Option (GoString × GoString)) :
    consOut a (consOut b o) = consOut (a ++ b) o := by
  cases o with
  | none => rfl
  | some r => simp [consOut]

/-- Bytes from 0x80 on are copied as they are. -/
theorem unquoteLoop_high (pre : GoString) :
    ∀ (F : Nat) (Y : GoString), (∀ x ∈ pre, 0x80 ≤ x.val) →
      unquoteLoop (F + pre.length) (pre ++ Y) = consOut pre (unquoteLoop F Y) := by
  induction pre with
  | nil =>
    intro F Y _
    cases h : unquoteLoop F Y with
    | none => simp [h, consOut]
    | some r => simp [h, consOut]
  | cons b pre ih =>
    intro F Y hall
    have hb := hall b (by simp)
    have hstep := unquoteStep_copy b (pre ++ Y) (by omega) (by omega) (by omega)
    have := unquoteLoop_more (F + pre.length) (b :: (pre ++ Y)) [b] (pre ++ Y) hstep
    rw [List.length_cons, ← Nat.add_assoc, List.cons_append, this,
      ih F Y (fun x hx => hall x (by simp [hx])), consOut_consOut]
    rfl

/-- One round of the encoding loop and its reading back: the round writes
`enc`, which reads back in `k` steps as `chunk`, and goes on with `s1`; on
valid UTF-8 the chunk is what the round consumed. -/
theorem stringLoop_chunk (f : Nat) (b : Byte) (t : GoString) :
    ∃ (k : Nat) (enc chunk s1 : GoString),
      stringLoop (f + 1) (b :: t) = enc ++ stringLoop f s1
        ∧ 1 ≤ k ∧ k ≤ enc.length ∧ s1.length ≤ t.length
        ∧ (∀ (F : Nat) (Y : GoString),
            unquoteLoop (F + k) (enc ++ Y) = consOut chunk (unquoteLoop F Y))
        ∧ (∀ f2, validLoop (f2 + 1) (b :: t) = true →
            chunk ++ s1 = b :: t ∧ validLoop f2 s1 = true) := by
  by_cases hb : b.val < 0x80
  · have hdec := decodeRune_ascii b t hb
    have hvalid : ∀ f2, validLoop (f2 + 1) (b :: t) = true →
        [b] ++ t = b :: t ∧ validLoop f2 t = true := by
      intro f2 hv
      have hne : ¬ (b.val = RuneError) := by simp only [RuneError]; omega
      simp only [validLoop, hdec, hne, false_and, if_false, List.drop_succ_cons,
        List.drop_zero] at hv
      exact ⟨rfl, hv⟩
    by_cases hs : htmlSafe b = true
    · refine ⟨1, [b], [b], t, by simp [stringLoop, hb, hs], le_refl _, by simp, le_refl _, ?_,
        hvalid⟩
      intro F Y
      have hs' := hs
      simp only [htmlSafe, Bool.and_eq_true, decide_eq_true_eq, bne_iff_ne, ne_eq] at hs'
      exact unquoteLoop_more F _ [b] Y
        (unquoteStep_copy b Y hs'.1.1.1.1.1.1 hs'.1.1.1.1.2 hs'.1.1.1.2)
    · refine ⟨1, escapeByte b, [b], t, by simp [stringLoop, hb, hs], le_refl _, ?_, le_refl _, ?_,
        hvalid⟩
      · unfold escapeByte; split_ifs <;> simp
      · intro F Y
        exact unquoteLoop_more F _ [b] Y (unquoteStep_escape b Y hb)
  · have hb' : 0x80 ≤ b.val := by omega
    rcases decodeRune_cases b t hb' with hdec
      | ⟨b1, t1, rfl, h1, h2, h3, h4, hdec⟩
      | ⟨b1, b2, t2, rfl, h1, h2, h3, h4, h5, h6, h7, h8, hdec⟩
      | ⟨b1, b2, b3, t3, rfl, h1, h2, h3, h4, h5, h6, h7, h8, h9, h10, hdec⟩
    · refine ⟨1, ascii "\\ufffd", [0xEF, 0xBF, 0xBD], t, by simp [stringLoop, hb, hdec], le_refl _,
        by decide, le_refl _, ?_, ?_⟩
      · intro F Y
        exact unquoteLoop_more F _ _ Y
          (unquoteStep_u 0x66 0x66 0x66 0x64 0xFFFD Y rfl (by omega))
      · intro f2 hv
        simp [validLoop, hdec] at hv
    · generalize hr : b.val % 32 * 64 + b1.val % 64 = r at hdec
      have hr1 : ¬ (r = 0x2028 ∨ r = 0x2029) := by omega
      refine ⟨2, [b, b1], [b, b1], t1, by simp [stringLoop, hb, hdec, hr1], by omega, by simp,
        by simp, ?_, ?_⟩
      · intro F Y
        exact unquoteLoop_high [b, b1] F Y (by simp; omega)
      · intro f2 hv
        simp only [validLoop, hdec] at hv
        simpa using hv
    · generalize hr : b.val % 16 * 4096 + b1.val % 64 * 64 + b2.val % 64 = r at hdec
      by_cases hr1 : r = 0x2028 ∨ r = 0x2029
      · have hbb : b = (0xE2 : Byte) := Fin.ext (by show b.val = 0xE2; omega)
        have hbb1 : b1 = (0x80 : Byte) := Fin.ext (by show b1.val = 0x80; omega)
        refine ⟨1, ascii "\\u202" ++ [hexDigit (r % 16)], [b, b1, b2], t2,
          by simp [stringLoop, hb, hdec, hr1], le_refl _, by simp [ascii], by simp; omega, ?_, ?_⟩
        · intro F Y
          refine unquoteLoop_more F _ _ Y ?_
          rcases hr1 with hr1 | hr1
          · have : b2 = (0xA8 : Byte) := Fin.ext (by show b2.val = 0xA8; omega)
            subst this; subst hr1; subst hbb; subst hbb1
            exact unquoteStep_u 0x32 0x30 0x32 0x38 0x2028 Y rfl (by omega)
          · have : b2 = (0xA9 : Byte) := Fin.ext (by show b2.val = 0xA9; omega)
            subst this; subst hr1; subst hbb; subst hbb1
            exact unquoteStep_u 0x32 0x30 0x32 0x39 0x2029 Y rfl (by omega)
        · intro f2 hv
          simp only [validLoop, hdec] at hv
          simpa using hv
      · refine ⟨3, [b, b1, b2], [b, b1, b2], t2, by simp [stringLoop, hb, hdec, hr1], by omega,
          by simp, by simp; omega, ?_, ?_⟩
        · intro F Y
          exact unquoteLoop_high [b, b1, b2] F Y (by simp; omega)
        · intro f2 hv
          simp only [validLoop, hdec] at hv
          simpa using hv
    · generalize hr : b.val % 8 * 262144 + b1.val % 64 * 4096 + b2.val % 64 * 64 + b3.val % 64 = r
        at hdec
      have hr1 : ¬ (r = 0x2028 ∨ r = 0x2029) := by omega
      refine ⟨4, [b, b1, b2, b3], [b, b1, b2, b3], t3, by simp [stringLoop, hb, hdec, hr1],
        by omega, by simp, by simp; omega, ?_, ?_⟩
      · intro F Y
        exact unquoteLoop_high [b, b1, b2, b3] F Y (by simp; omega)
      · intro f2 hv
        simp only [validLoop, hdec] at hv
        simpa using hv

/-- The body the encoder writes for a string reads back, whatever the string
is; when the string is valid UTF-8 it reads back as the string itself. -/
theorem unquoteLoop_stringLoop (f : Nat) :
    ∀ (s : GoString) (F : Nat) (rest : GoString),
      s.length ≤ f → (stringLoop f s).length + 1 ≤ F →
      ∃ out, unquoteLoop F (stringLoop f s ++ (0x22 : Byte) :: rest) = some (out, rest)
        ∧ ∀ f2, validLoop f2 s = true → out = s := by
  induction f with
  | zero =>
    intro s F rest hs hF
    obtain ⟨F1, rfl⟩ : ∃ F1, F = F1 + 1 := ⟨F - 1, by omega⟩
    have hnil : s = [] := List.eq_nil_of_length_eq_zero (by omega)
    subst hnil
    exact ⟨[], by simp [stringLoop, unquoteLoop_quote], fun _ _ => rfl⟩
  | succ f ih =>
    intro s F rest hs hF
    cases s with
    | nil =>
      obtain ⟨F1, rfl⟩ : ∃ F1, F = F1 + 1 := ⟨F - 1, by omega⟩
      exact ⟨[], by simp [stringLoop, unquoteLoop_quote], fun _ _ => rfl⟩
    | cons b t =>
      obtain ⟨k, enc, chunk, s1, henc, hk1, hk2, hlen, hread, hvalid⟩ := stringLoop_chunk f b t
      rw [henc, List.length_append] at hF
      obtain ⟨F1, rfl⟩ : ∃ F1, F = F1 + k := ⟨F - k, by omega⟩
      obtain ⟨out1, hout1, hval1⟩ := ih s1 F1 rest (by simp at hs; omega) (by omega)
      refine ⟨chunk ++ out1, ?_, ?_⟩
      · rw [henc, List.append_assoc, hread, hout1]
        rfl
      · intro f2 hv
        cases f2 with
        | zero => simp [validLoop] at hv
        | succ f2 =>
          obtain ⟨hcs, hv1⟩ := hvalid f2 hv
          rw [hval1 f2 hv1, hcs]

/-- An encoded string, read back as a string literal: reading succeeds, and
gives the string itself when the string is valid UTF-8. -/
theorem parseString_encodeString (s rest : GoString) :
    ∃ out, parseString (encodeString s ++ rest) = some (out, rest)
      ∧ (ValidString s = true → out = s) := by
  obtain ⟨out, hout, hval⟩ := unquoteLoop_stringLoop s.length s
    (stringLoop s.length s ++ (0x22 : Byte) :: rest).length rest (le_refl _) (by simp)
  refine ⟨out, ?_, fun hv => hval _ hv⟩
  have hx : ((0x22 : Byte) : Nat) = 0x22 := rfl
  simp only [encodeString, List.cons_append, List.append_assoc, List.singleton_append,
    parseString, hx, if_true, unquoteBody]
  exact hout

/-- An encoded string, read back as a value. -/
theorem parseValue_encodeString (s rest : GoString) :
    ∃ out, parseValue (encodeString s ++ rest) = some (.string out, rest)
      ∧ (ValidString s = true → out = s) := by
  obtain ⟨out, hout, hval⟩ := parseString_encodeString s rest
  refine ⟨out, ?_, hval⟩
  have hx : ((0x22 : Byte) : Nat) = 0x22 := rfl
  simp only [encodeString, List.cons_append, parseString, hx, if_true] at hout
  simp only [encodeString, List.cons_append, parseValue, hx, if_true, hout, Option.map]

/-! ## Reading back the payload -/

/-- A member followed by a comma and further members. -/
theorem parseMembers_more (fuel : Nat) (s key Z r1 r : GoString) (v : JValue)
    (ms : List (GoString × JValue))
    (hk : parseString s = some (key, (0x3A : Byte) :: Z))
    (hv : parseValue Z = some (v, (0x2C : Byte) :: r1))
    (hm : parseMembers fuel r1 = some (ms, r)) :
    parseMembers (fuel + 1) s = some ((key, v) :: ms, r) := by
  have h1 : ((0x3A : Byte) : Nat) = 0x3A := rfl
  have h2 : ((0x2C : Byte) : Nat) = 0x2C := rfl
  simp [parseMembers, hk, hv, hm, h1, h2]

/-- The last member, followed by the closing brace. -/
theorem parseMembers_last (fuel : Nat) (s key Z r : GoString) (v : JValue)
    (hk : parseString s = some (key, (0x3A : Byte) :: Z))
    (hv : parseValue Z = some (v, (0x7D : Byte) :: r)) :
    parseMembers (fuel + 1) s = some ([(key, v)], r) := by
  have h1 : ((0x3A : Byte) : Nat) = 0x3A := rfl
  have h2 : ((0x7D : Byte) : Nat) = 0x7D := rfl
  simp [parseMembers, hk, hv, h1, h2]

/-- The payload is a JSON object with the members `hosts` (null),
`certificate_request`, `expiry`, `profile` (strings) and `bundle` (true);
each string member that was given as valid UTF-8 reads back as given. -/
theorem parseObject_payload (csr expiry profile : GoString) :
    ∃ c e p, parseObject (payload csr expiry profile)
        = some [(ascii "hosts", .null), (ascii "certificate_request", .string c),
            (ascii "expiry", .string e), (ascii "profile", .string p),
            (ascii "bundle", .bool true)]
      ∧ (ValidString csr = true → c = csr) ∧ (ValidString expiry = true → e = expiry)
      ∧ (ValidString profile = true → p = profile) := by
  obtain ⟨p, hp, hpv⟩ := parseValue_encodeString profile (ascii ",\"bundle\":true\x7d")
  obtain ⟨e, he, hev⟩ := parseValue_encodeString expiry
    (ascii ",\"profile\":" ++ (encodeString profile ++ ascii ",\"bundle\":true\x7d"))
  obtain ⟨c, hc, hcv⟩ := parseValue_encodeString csr
    (ascii ",\"expiry\":" ++ (encodeString expiry
      ++ (ascii ",\"profile\":" ++ (encodeString profile ++ ascii ",\"bundle\":true\x7d"))))
  refine ⟨c, e, p, ?_, hcv, hev, hpv⟩
  have h5 : ∀ n, parseMembers (n + 1) (ascii "\"bundle\":true\x7d")
      = some ([(ascii "bundle", .bool true)], []) := fun n => rfl
  have h4 : ∀ n, parseMembers (n + 2)
      (ascii "\"profile\":" ++ (encodeString profile ++ ascii ",\"bundle\":true\x7d"))
      = some ([(ascii "profile", .string p), (ascii "bundle", .bool true)], []) := fun n =>
    parseMembers_more (n + 1) _ (ascii "profile")
      (encodeString profile ++ ascii ",\"bundle\":true\x7d") (ascii "\"bundle\":true\x7d") []
      (.string p) _ rfl hp (h5 n)
  have h3 : ∀ n, parseMembers (n + 3)
      (ascii "\"expiry\":" ++ (encodeString expiry
        ++ (ascii ",\"profile\":" ++ (encodeString profile ++ ascii ",\"bundle\":true\x7d"))))
      = some ([(ascii "expiry", .string e), (ascii "profile", .string p),
          (ascii "bundle", .bool true)], []) := fun n =>
    parseMembers_more (n + 2) _ (ascii "expiry") _ _ [] (.string e) _ rfl he (h4 n)
  have h2 : ∀ n, parseMembers (n + 4)
      (ascii "\"certificate_request\":" ++ (encodeString csr
        ++ (ascii ",\"expiry\":" ++ (encodeString expiry
        ++ (ascii ",\"profile\":" ++ (encodeString profile ++ ascii ",\"bundle\":true\x7d"))))))
      = some ([(ascii "certificate_request", .string c), (ascii "expiry", .string e),
          (ascii "profile", .string p), (ascii "bundle", .bool true)], []) := fun n =>
    parseMembers_more (n + 3) _ (ascii "certificate_request") _ _ [] (.string c) _ rfl hc (h3 n)
  have h1 : ∀ n, parseMembers (n + 5)
      (ascii "\"hosts\":null,\"certificate_request\":" ++ (encodeString csr
        ++ (ascii ",\"expiry\":" ++ (encodeString expiry
        ++ (ascii ",\"profile\":" ++ (encodeString profile ++ ascii ",\"bundle\":true\x7d"))))))
      = some ([(ascii "hosts", .null), (ascii "certificate_request", .string c),
          (ascii "expiry", .string e), (ascii "profile", .string p),
          (ascii "bundle", .bool true)], []) := fun n =>
    parseMembers_more (n + 4) _ (ascii "hosts") _ _ [] .null _ rfl rfl (h2 n)
  have hlen : 5 ≤ (ascii "\"hosts\":null,\"certificate_request\":" ++ (encodeString csr
        ++ (ascii ",\"expiry\":" ++ (encodeString expiry
        ++ (ascii ",\"profile\":" ++ (encodeString profile
          ++ ascii ",\"bundle\":true\x7d")))))).length := by
    have h35 : (ascii "\"hosts\":null,\"certificate_request\":").length = 35 := rfl
    rw [List.length_append, h35]
    omega
  obtain ⟨n, hn⟩ := Nat.exists_eq_add_of_le hlen
  have hobj : ∀ X : GoString, parseObject ((0x7B : Byte) :: (0x22 : Byte) :: X)
      = match parseMembers ((0x22 : Byte) :: X).length ((0x22 : Byte) :: X) with
        | some (ms, []) => some ms
        | _ => none := fun X => rfl
  have hpay : payload csr expiry profile = (0x7B : Byte) :: (0x22 : Byte) ::
      (ascii "hosts\":null,\"certificate_request\":" ++ (encodeString csr
        ++ (ascii ",\"expiry\":" ++ (encodeString expiry
        ++ (ascii ",\"profile\":" ++ (encodeString profile
          ++ ascii ",\"bundle\":true\x7d")))))) := rfl
  have key : parseMembers ((0x22 : Byte) ::
        (ascii "hosts\":null,\"certificate_request\":" ++ (encodeString csr
        ++ (ascii ",\"expiry\":" ++ (encodeString expiry
        ++ (ascii ",\"profile\":" ++ (encodeString profile
          ++ ascii ",\"bundle\":true\x7d"))))))).length
      ((0x22 : Byte) ::
        (ascii "hosts\":null,\"certificate_request\":" ++ (encodeString csr
        ++ (ascii ",\"expiry\":" ++ (encodeString expiry
        ++ (ascii ",\"profile\":" ++ (encodeString profile
          ++ ascii ",\"bundle\":true\x7d")))))))
      = some ([(ascii "hosts", .null), (ascii "certificate_request", .string c),
          (ascii "expiry", .string e), (ascii "profile", .string p),
          (ascii "bundle", .bool true)], []) := by
    have h1n := h1 n
    rw [Nat.add_comm n 5, ← hn] at h1n
    exact h1n
  rw [hpay, hobj, key]

/-! ## The posted payload -/

/-- A call of `http.Post` among the events of `requestCertificate` means
that the expiry has passed, and it is the call with the sign URL, the JSON
content type and the payload. -/
theorem posted_is_payload (w : World) (cfsslServer csr csrExpiry cfsslProfileName : GoString)
    (url ct body : GoString)
    (h : Event.post url ct body
      ∈ (requestCertificate w cfsslServer csr csrExpiry cfsslProfileName).1) :
    (csrExpiry = [] ∨ reExpiry.MatchString csrExpiry = true)
      ∧ url = cfsslServer ++ ascii "/api/v1/cfssl/sign" ∧ ct = ascii "application/json"
      ∧ body = payload csr csrExpiry cfsslProfileName := by
  by_cases hexp : csrExpiry = [] ∨ reExpiry.MatchString csrExpiry = true
  · have hposts := posts_after_pass w cfsslServer csr csrExpiry cfsslProfileName hexp
    have hmem : Event.post url ct body
        ∈ postsOf (requestCertificate w cfsslServer csr csrExpiry cfsslProfileName).1 := by
      unfold postsOf
      rw [List.mem_filter]
      exact ⟨h, rfl⟩
    rw [hposts, List.mem_singleton] at hmem
    injection hmem with h1 h2 h3
    exact ⟨hexp, h1, h2, h3⟩
  · have hne : csrExpiry ≠ [] := fun h => hexp (Or.inl h)
    have hre : reExpiry.MatchString csrExpiry = false := by
      cases h : reExpiry.MatchString csrExpiry with
      | true => exact absurd (Or.inr h) hexp
      | false => rfl
    rw [requestCertificate_reject w cfsslServer csr csrExpiry cfsslProfileName hne hre] at h
    simp at h

/-- A string of ASCII bytes is valid UTF-8. -/
theorem validLoop_ascii (n : Nat) :
    ∀ s : GoString, (∀ x ∈ s, x.val < 0x80) → s.length ≤ n → validLoop n s = true := by
  induction n with
  | zero =>
    intro s _ hlen
    have hnil : s = [] := List.eq_nil_of_length_eq_zero (by omega)
    subst hnil
    rfl
  | succ n ih =>
    intro s hs hlen
    cases s with
    | nil => rfl
    | cons b t =>
      have hb := hs b (by simp)
      have hne : ¬ (b.val = RuneError) := by simp only [RuneError]; omega
      simp only [validLoop, decodeRune_ascii b t hb, hne, false_and, if_false,
        List.drop_succ_cons, List.drop_zero]
      exact ih t (fun x hx => hs x (by simp [hx])) (by simp at hlen; omega)

/-- An expiry that passes the validation is valid UTF-8. -/
theorem passed_expiry_valid (csrExpiry : GoString)
    (h : csrExpiry = [] ∨ reExpiry.MatchString csrExpiry = true) :
    ValidString csrExpiry = true := by
  rcases h with h | h
  · subst h; rfl
  · obtain ⟨d, ds, hs, hd, hds⟩ := (reExpiry_matches_form csrExpiry).mp h
    apply validLoop_ascii _ _ _ (le_refl _)
    intro x hx
    rw [hs] at hx
    simp only [List.mem_cons, List.mem_append, List.mem_singleton, List.not_mem_nil,
      or_false] at hx
    rcases hx with rfl | hx | rfl
    · omega
    · have := hds x hx; omega
    · decide

/-- C4: every payload that `requestCertificate` posts contains
`"hosts":null` and `"bundle":true`, and read back as JSON it is an object
whose member `hosts` is null and whose member `bundle` is true, whatever the
CSR, the expiry and the profile are. -/
theorem payload_has_hosts_null_and_bundle_true (w : World)
    (cfsslServer csr csrExpiry cfsslProfileName url ct body : GoString)
    (h : Event.post url ct body
      ∈ (requestCertificate w cfsslServer csr csrExpiry cfsslProfileName).1) :
    (∃ pre post, body = pre ++ ascii "\"hosts\":null" ++ post)
      ∧ (∃ pre post, body = pre ++ ascii "\"bundle\":true" ++ post)
      ∧ ∃ c e p, parseObject body
          = some [(ascii "hosts", .null), (ascii "certificate_request", .string c),
              (ascii "expiry", .string e), (ascii "profile", .string p),
              (ascii "bundle", .bool true)] := by
  obtain ⟨_, _, _, hbody⟩ := posted_is_payload w cfsslServer csr csrExpiry cfsslProfileName
    url ct body h
  subst hbody
  refine ⟨⟨ascii "\x7b", ascii ",\"certificate_request\":" ++ (encodeString csr
      ++ (ascii ",\"expiry\":" ++ (encodeString csrExpiry
      ++ (ascii ",\"profile\":" ++ (encodeString cfsslProfileName
        ++ ascii ",\"bundle\":true\x7d"))))), rfl⟩, ?_, ?_⟩
  · refine ⟨ascii "\x7b\"hosts\":null,\"certificate_request\":" ++ (encodeString csr
      ++ (ascii ",\"expiry\":" ++ (encodeString csrExpiry
      ++ (ascii ",\"profile\":" ++ (encodeString cfsslProfileName ++ ascii ","))))),
      ascii "\x7d", ?_⟩
    have h3 : ascii ",\"bundle\":true\x7d" = ascii "," ++ (ascii "\"bundle\":true" ++ ascii "\x7d") :=
      rfl
    rw [payload, h3]
    simp only [List.append_assoc]
  · obtain ⟨c, e, p, hobj, _⟩ := parseObject_payload csr csrExpiry cfsslProfileName
    exact ⟨c, e, p, hobj⟩

/-- Witness of C4: the payload of a request with the expiry `24h`. -/
theorem payload_has_hosts_null_and_bundle_true_witness :
    (∃ pre post, payload (ascii "CSR") (ascii "24h") []
        = pre ++ ascii "\"hosts\":null" ++ post)
      ∧ (∃ pre post, payload (ascii "CSR") (ascii "24h") []
        = pre ++ ascii "\"bundle\":true" ++ post)
      ∧ ∃ c e p, parseObject (payload (ascii "CSR") (ascii "24h") [])
          = some [(ascii "hosts", .null), (ascii "certificate_request", .string c),
              (ascii "expiry", .string e), (ascii "profile", .string p),
              (ascii "bundle", .bool true)] :=
  payload_has_hosts_null_and_bundle_true unreachableWorld (ascii "http://ca") (ascii "CSR")
    (ascii "24h") [] (ascii "http://ca/api/v1/cfssl/sign") (ascii "application/json")
    (payload (ascii "CSR") (ascii "24h") []) (by decide)

/-- C8 (as stated, refuted): a CSR file that holds the single byte FF and a
profile that holds the single byte 80 are posted, and the payload reads back
with U+FFFD in their place, not with the bytes given. -/
theorem invalid_utf8_not_restored :
    postsOf (requestCertificate unreachableWorld (ascii "http://ca") [0xFF] [] [0x80]).1
        = [.post (ascii "http://ca/api/v1/cfssl/sign") (ascii "application/json")
            (payload [0xFF] [] [0x80])]
      ∧ parseObject (payload [0xFF] [] [0x80])
        = some [(ascii "hosts", .null), (ascii "certificate_request", .string [0xEF, 0xBF, 0xBD]),
            (ascii "expiry", .string []), (ascii "profile", .string [0xEF, 0xBF, 0xBD]),
            (ascii "bundle", .bool true)]
      ∧ parseObject (payload [0xFF] [] [0x80])
        ≠ some [(ascii "hosts", .null), (ascii "certificate_request", .string [0xFF]),
            (ascii "expiry", .string []), (ascii "profile", .string [0x80]),
            (ascii "bundle", .bool true)] := by
  decide

/-- The payload that `requestCertificate` posts reads back as the arguments
it was called with, when the CSR and the profile are valid UTF-8. -/
theorem posted_payload_reads_back (w : World)
    (cfsslServer csr csrExpiry cfsslProfileName url ct body : GoString)
    (hcsr : ValidString csr = true) (hprofile : ValidString cfsslProfileName = true)
    (h : Event.post url ct body
      ∈ (requestCertificate w cfsslServer csr csrExpiry cfsslProfileName).1) :
    parseObject body
      = some [(ascii "hosts", .null), (ascii "certificate_request", .string csr),
          (ascii "expiry", .string csrExpiry), (ascii "profile", .string cfsslProfileName),
          (ascii "bundle", .bool true)] := by
  obtain ⟨hexp, _, _, hbody⟩ := posted_is_payload w cfsslServer csr csrExpiry cfsslProfileName
    url ct body h
  subst hbody
  obtain ⟨c, e, p, hobj, hc, he, hp⟩ := parseObject_payload csr csrExpiry cfsslProfileName
  rw [hobj, hc hcsr, he (passed_expiry_valid csrExpiry hexp), hp hprofile]

/-- No event of `parseArguments` is a call of `http.Post`. -/
theorem parseArguments_no_post (w : World) :
    ∀ e ∈ (parseArguments w).1, e.isPost = false := by
  intro e he
  unfold parseArguments at he
  split at he
  · simp only [List.mem_singleton] at he
    subst he; rfl
  · cases hf : parseFlags w.Args Flags.defaults with
    | error fe =>
      simp only [hf, List.mem_cons, List.mem_singleton, List.not_mem_nil, or_false] at he
      rcases he with rfl | rfl <;> rfl
    | ok f =>
      simp only [hf, List.mem_cons, List.mem_singleton, List.not_mem_nil, or_false] at he
      rcases he with rfl | rfl <;> rfl

/-- A call of `http.Post` in a run of `main` is a call that
`requestCertificate` makes, on the values of the flags and the contents of
the CSR file, after the flags were parsed and the file was read. -/
theorem main_post (w : World) (url ct body : GoString)
    (h : Event.post url ct body ∈ (main w).events) :
    ∃ f, parseFlags w.Args Flags.defaults = .ok f ∧ (w.ReadFile f.csrFile).err = none
      ∧ Event.post url ct body
        ∈ (requestCertificate w f.cfsslServer (w.ReadFile f.csrFile).data f.expiry
            f.cfsslProfile).1 := by
  have hnp := parseArguments_no_post w
  unfold main at h
  rcases hpa : parseArguments w with ⟨ev, res⟩
  rw [hpa] at h hnp
  cases res with
  | error code =>
    have := hnp _ h
    simp [Event.isPost] at this
  | ok a =>
    obtain ⟨f, hf, hev, ha⟩ := parseArguments_ok w ev a hpa
    refine ⟨f, hf, ?_⟩
    subst ha
    cases herr : (w.ReadFile f.csrFile).err with
    | some err =>
      simp only [herr, Option.map] at h
      rcases List.mem_append.mp h with h1 | h1
      · have := hnp _ h1
        simp [Event.isPost] at this
      · simp at h1
    | none =>
      refine ⟨rfl, ?_⟩
      simp only [herr, Option.map] at h
      rcases hrc : requestCertificate w f.cfsslServer (w.ReadFile f.csrFile).data f.expiry
          f.cfsslProfile with ⟨ev2, ⟨rb, re⟩⟩
      rw [hrc] at h
      cases re with
      | some err =>
        simp only [List.mem_append, List.mem_singleton] at h
        rcases h with (h1 | h1) | h1
        · rcases h1 with (h1 | h1) | h1
          · have := hnp _ h1
            simp [Event.isPost] at this
          · simp at h1
          · cases hv : f.verbose <;> simp [hv] at h1
        · exact h1
        · simp at h1
      | none =>
        simp only [List.mem_append, List.mem_singleton] at h
        rcases h with (h1 | h1) | h1
        · rcases h1 with (h1 | h1) | h1
          · have := hnp _ h1
            simp [Event.isPost] at this
          · simp at h1
          · cases hv : f.verbose <;> simp [hv] at h1
        · exact h1
        · simp at h1

/-- C8 (amended): every body that a run of `main` posts comes after the
flags were parsed and the file named by `--csr-file` was read without
error; and when the contents of that file and the profile are valid UTF-8,
the body is a JSON object with the members `hosts`, `certificate_request`,
`expiry`, `profile` and `bundle`, in which `certificate_request` reads back
as the verbatim contents of the CSR file, `expiry` as the value of
`--expiry` and `profile` as the value of `--cfssl-profile`. -/
theorem payload_round_trip (w : World) (url ct body : GoString)
    (h : Event.post url ct body ∈ (main w).events) :
    ∃ f, parseFlags w.Args Flags.defaults = .ok f ∧ (w.ReadFile f.csrFile).err = none
      ∧ (ValidString (w.ReadFile f.csrFile).data = true → ValidString f.cfsslProfile = true →
          parseObject body
            = some [(ascii "hosts", .null),
                (ascii "certificate_request", .string (w.ReadFile f.csrFile).data),
                (ascii "expiry", .string f.expiry), (ascii "profile", .string f.cfsslProfile),
                (ascii "bundle", .bool true)]) := by
  obtain ⟨f, hf, herr, hpost⟩ := main_post w url ct body h
  exact ⟨f, hf, herr, fun hcsr hprofile =>
    posted_payload_reads_back w f.cfsslServer (w.ReadFile f.csrFile).data f.expiry
      f.cfsslProfile url ct body hcsr hprofile hpost⟩

set_option maxRecDepth 8000 in
/-- Witness of C8 (amended): a run on a PEM file with line breaks, a quote,
a backslash and `<&>`, with the expiry `8760h` and a profile name outside
ASCII; the body it posts reads back as the file, the expiry and the
profile. -/
theorem payload_round_trip_witness :
    Event.post (ascii "http://ca/api/v1/cfssl/sign") (ascii "application/json")
        (payload (ascii "-----BEGIN-----\nMIIB<&>\"\\\n-----END-----\n") (ascii "8760h")
          [0x73, 0xC3, 0xA9])
        ∈ (main pemWorld).events
      ∧ parseObject (payload (ascii "-----BEGIN-----\nMIIB<&>\"\\\n-----END-----\n")
          (ascii "8760h") [0x73, 0xC3, 0xA9])
        = some [(ascii "hosts", .null),
            (ascii "certificate_request",
              .string (ascii "-----BEGIN-----\nMIIB<&>\"\\\n-----END-----\n")),
            (ascii "expiry", .string (ascii "8760h")),
            (ascii "profile", .string [0x73, 0xC3, 0xA9]),
            (ascii "bundle", .bool true)] := by
  have hmem : Event.post (ascii "http://ca/api/v1/cfssl/sign") (ascii "application/json")
      (payload (ascii "-----BEGIN-----\nMIIB<&>\"\\\n-----END-----\n") (ascii "8760h")
        [0x73, 0xC3, 0xA9])
      ∈ (main pemWorld).events := by decide
  obtain ⟨f, hf, _, himp⟩ := payload_round_trip pemWorld _ _ _ hmem
  have h0 : parseFlags pemWorld.Args Flags.defaults
      = .ok ⟨ascii "http://ca", ascii "b.csr", ascii "8760h", [0x73, 0xC3, 0xA9], false⟩ := rfl
  rw [h0] at hf
  injection hf with hf
  subst hf
  exact ⟨hmem, himp (by decide) (by decide)⟩

end CfsslRequester
